import Mathlib

/-!
Verification of the page-marker scanning and grouping core of
`src/app.py` (function `split_messages_pdf` and the regular expression
`message_pattern`).

The embedding works over `List Char` texts and models pages by their
zero-based index in the document.  The per-page outcome of
`page.extract_text()` is modelled by `PageInput`:

* `extracted t` : `extract_text()` returned the string `t` (possibly empty;
  the source's `if not text:` branch fires exactly when `t` is empty),
* `failed`     : `extract_text()` returned `None` (falsy, same branch),
* `exn`        : an exception was raised while processing the page
  (the source's `except Exception as page_ex: continue` branch).
-/

namespace OFW

/-- Python's `\s` character class (whitespace), restricted to the code points
that can actually occur here; matches `re` module semantics for `str`
patterns on these code points (ASCII whitespace, the C1 separators,
NEL, NBSP and the standard Unicode space separators). -/
def isPySpace (c : Char) : Bool :=
  decide (c.toNat = 32) || decide (c.toNat = 9) || decide (c.toNat = 10) ||
  decide (c.toNat = 11) || decide (c.toNat = 12) || decide (c.toNat = 13) ||
  (decide (28 ≤ c.toNat) && decide (c.toNat ≤ 31)) ||
  decide (c.toNat = 133) || decide (c.toNat = 160) || decide (c.toNat = 5760) ||
  (decide (8192 ≤ c.toNat) && decide (c.toNat ≤ 8202)) ||
  decide (c.toNat = 8232) || decide (c.toNat = 8233) || decide (c.toNat = 8239) ||
  decide (c.toNat = 8287) || decide (c.toNat = 12288)

/-- Python's `\d` character class restricted to ASCII decimal digits
(the only digits occurring in these documents). -/
def isDigitCh (c : Char) : Bool :=
  decide (48 ≤ c.toNat) && decide (c.toNat ≤ 57)

/-- Numeric value of a digit character. -/
def digitVal (c : Char) : Nat := c.toNat - 48

/-- `int()` applied to a run of decimal digits, with accumulator `a`
(so `digitsVal 0 ds` is the value of the digit string `ds`). -/
def digitsVal (a : Nat) (ds : List Char) : Nat :=
  ds.foldl (fun x c => 10 * x + digitVal c) a

/-- Match a literal character sequence at the head of the input,
returning the rest on success. -/
def dropLit : List Char → List Char → Option (List Char)
  | [], s => some s
  | _ :: _, [] => none
  | l :: ls, c :: cs => if c = l then dropLit ls cs else none

/-- Split off the maximal prefix of characters satisfying `p`
(the behaviour of a greedy character-class repetition). -/
def spanP (p : Char → Bool) : List Char → List Char × List Char
  | [] => ([], [])
  | c :: cs =>
    if p c then
      let r := spanP p cs
      (c :: r.1, r.2)
    else ([], c :: cs)

/-- Attempt to match the regular expression `Message\s+(\d+)\s+of\s+(\d+)`
anchored at the start of `s`, returning `(int(group 1), int(group 2))`.
Because `\s` and `\d` are disjoint character classes separated by literals,
the greedy maximal-run matching implemented here coincides with the
backtracking semantics of the Python `re` engine for this pattern. -/
def matchHere (s : List Char) : Option (Nat × Nat) :=
  match dropLit ['M', 'e', 's', 's', 'a', 'g', 'e'] s with
  | none => none
  | some s1 =>
    match spanP isPySpace s1 with
    | (ws1, s2) =>
      if ws1.isEmpty then none else
      match spanP isDigitCh s2 with
      | (ds1, s3) =>
        if ds1.isEmpty then none else
        match spanP isPySpace s3 with
        | (ws2, s4) =>
          if ws2.isEmpty then none else
          match dropLit ['o', 'f'] s4 with
          | none => none
          | some s5 =>
            match spanP isPySpace s5 with
            | (ws3, s6) =>
              if ws3.isEmpty then none else
              match spanP isDigitCh s6 with
              | (ds2, _) =>
                if ds2.isEmpty then none else
                some (digitsVal 0 ds1, digitsVal 0 ds2)

/-- `message_pattern.search(text)`: the leftmost occurrence of the pattern,
scanning candidate start positions from left to right. -/
def message_pattern_search : List Char → Option (Nat × Nat)
  | [] => none
  | s@(_ :: rest) =>
    match matchHere s with
    | some r => some r
    | none => message_pattern_search rest

/-- Decimal rendering worker: fuel-indexed so that it is structurally
recursive (the fuel argument strictly decreases); `fuel > n` suffices. -/
def toDecAux : Nat → Nat → List Char → List Char
  | 0, _, acc => acc
  | fuel + 1, n, acc =>
    if n < 10 then Char.ofNat (48 + n) :: acc
    else toDecAux fuel (n / 10) (Char.ofNat (48 + n % 10) :: acc)

/-- Python's `str()` on a non-negative integer: its decimal digits. -/
def toDec (n : Nat) : List Char := toDecAux (n + 1) n []

/-- Result of text extraction for one page, as observed by the loop body of
`split_messages_pdf`. -/
inductive PageInput where
  | extracted (t : List Char)
  | failed
  | exn
deriving DecidableEq

/-- The total count rendered into an output filename: a number, or the
placeholder `X` used when the count could not be determined. -/
inductive TotalTag where
  | num (t : Nat)
  | unknown
deriving DecidableEq

/-- One output PDF written by `split_messages_pdf`: the message number and
total used for its filename, and the (indices of the) pages it contains,
in the order they were added. -/
structure GeneratedFile where
  number : Nat
  total : TotalTag
  pages : List Nat
deriving DecidableEq

/-- The loop state of `split_messages_pdf` (lines 97-101 of `src/app.py`),
plus `skipped`: bookkeeping for the pages the walk leaves unattributed
while no message is active (the spec's skipped-page count; the source
only logs these pages, at lines 112/168/172, and attaches them to no
output file). -/
structure SplitState where
  current_message_number : Nat
  total_messages_reported : Nat
  pages_for_current_message : List Nat
  last_match : Option (Nat × Nat)
  generated_files : List GeneratedFile
  skipped : Nat
deriving DecidableEq

/-- The initial loop state. -/
def initState : SplitState :=
  { current_message_number := 0
    total_messages_reported := 0
    pages_for_current_message := []
    last_match := none
    generated_files := []
    skipped := 0 }

/-- The filename `message_<N>_of_<T>.pdf` constructed at lines 139 and 187. -/
def mkFileName (n : Nat) (t : TotalTag) : List Char :=
  "message_".toList ++ toDec n ++ "_of_".toList ++
    (match t with
     | .num v => toDec v
     | .unknown => ['X']) ++ ".pdf".toList

/-- The filename under which a generated file was written. -/
def fileName (g : GeneratedFile) : List Char := mkFileName g.number g.total

/-- The body of the page loop (lines 104-174 of `src/app.py`) for one page.
`idx` is the zero-based page index. -/
def processPage (st : SplitState) (idx : Nat) (inp : PageInput) : SplitState :=
  match inp with
  | .exn =>
    -- `except Exception as page_ex: continue`: the page is dropped.
    if st.current_message_number = 0 then { st with skipped := st.skipped + 1 } else st
  | .failed =>
    -- `extract_text()` returned nothing: `if not text:` fires.
    if 0 < st.current_message_number then
      { st with pages_for_current_message := st.pages_for_current_message ++ [idx] }
    else { st with skipped := st.skipped + 1 }
  | .extracted t =>
    if t.isEmpty then
      -- the empty string is falsy: the same `if not text:` branch fires.
      if 0 < st.current_message_number then
        { st with pages_for_current_message := st.pages_for_current_message ++ [idx] }
      else { st with skipped := st.skipped + 1 }
    else
      match message_pattern_search t with
      | some (n, T) =>
        -- lines 126-132: initialise or overwrite the reported total.
        let total1 :=
          if st.total_messages_reported = 0 then T
          else if st.total_messages_reported ≠ T then T
          else st.total_messages_reported
        if n ≠ st.current_message_number then
          if st.pages_for_current_message.isEmpty then
            { st with total_messages_reported := total1
                      last_match := some (n, T)
                      current_message_number := n
                      pages_for_current_message := [idx] }
          else
            -- lines 137-151: seal the accumulated pages as one output file.
            { st with total_messages_reported := total1
                      last_match := some (n, T)
                      generated_files := st.generated_files ++
                        [⟨st.current_message_number, .num total1,
                          st.pages_for_current_message⟩]
                      current_message_number := n
                      pages_for_current_message := [idx] }
        else
          -- lines 156-160: repeated marker for the active message.
          { st with total_messages_reported := total1
                    last_match := some (n, T)
                    pages_for_current_message :=
                      if idx ∈ st.pages_for_current_message then
                        st.pages_for_current_message
                      else st.pages_for_current_message ++ [idx] }
      | none =>
        -- lines 161-168: no marker on this page.
        if 0 < st.current_message_number then
          { st with pages_for_current_message := st.pages_for_current_message ++ [idx] }
        else { st with skipped := st.skipped + 1 }

/-- The page loop, processing the remaining pages starting at index `i`. -/
def runFrom : Nat → List PageInput → SplitState → SplitState
  | _, [], st => st
  | i, p :: ps, st => runFrom (i + 1) ps (processPage st i p)

/-- Lines 176-197: after the loop, seal the pages of the last message. -/
def finalize (st : SplitState) : SplitState :=
  if ¬ st.pages_for_current_message.isEmpty ∧ 0 < st.current_message_number then
    let tot : TotalTag :=
      if st.total_messages_reported = 0 then
        match st.last_match with
        | some nt => .num nt.2
        | none => .unknown
      else .num st.total_messages_reported
    { st with generated_files := st.generated_files ++
        [⟨st.current_message_number, tot, st.pages_for_current_message⟩] }
  else st

/-- The message returned when no marker was found anywhere (line 202). -/
def noMessagesMsg : List Char :=
  "No messages found matching the pattern \x27Message X of Y\x27.".toList

/-- The value of `split_messages_pdf` observable by its caller: the list of
generated files, the returned message (if any), and the skipped-page
bookkeeping. -/
structure SplitResult where
  files : List GeneratedFile
  error : Option (List Char)
  skipped : Nat
deriving DecidableEq

/-- `split_messages_pdf` on an already-opened document, one `PageInput`
per page, in page order (lines 104-205 of `src/app.py`). -/
def split_messages_pdf (inputs : List PageInput) : SplitResult :=
  let st := finalize (runFrom 0 inputs initState)
  if st.generated_files.isEmpty then ⟨[], some noMessagesMsg, st.skipped⟩
  else ⟨st.generated_files, none, st.skipped⟩

/-- The marker match on one page, as the spec's Detector sees it. -/
def pageMatch (inp : PageInput) : Option (Nat × Nat) :=
  match inp with
  | .extracted t => message_pattern_search t
  | _ => none

/-- Index of the first page on which a marker is detected. -/
def firstMarkerIdx : List PageInput → Option Nat
  | [] => none
  | p :: ps =>
    if (pageMatch p).isSome then some 0
    else (firstMarkerIdx ps).map (fun i => i + 1)

/-- Number of pages preceding the first detected marker
(all pages when no marker is ever detected). -/
def beforeCount (inputs : List PageInput) : Nat :=
  match firstMarkerIdx inputs with
  | some f => f
  | none => inputs.length

/-- How many times page `p` occurs across a list of generated files. -/
def pageCount (files : List GeneratedFile) (p : Nat) : Nat :=
  (files.map (fun g => g.pages.count p)).sum

/-- `true` when a detected marker on this page (if any) declares a nonzero
message number. -/
def marksNonzero (inp : PageInput) : Bool :=
  match pageMatch inp with
  | some nt => decide (nt.1 ≠ 0)
  | none => true

/-- `true` when a detected marker on this page (if any) declares message
number zero. -/
def marksZero (inp : PageInput) : Bool :=
  match pageMatch inp with
  | some nt => decide (nt.1 = 0)
  | none => true

/-- `true` when no marker is detected on this page. -/
def noMark (inp : PageInput) : Bool := (pageMatch inp).isNone

/-- `true` when this page's processing does not raise. -/
def noExn (inp : PageInput) : Bool :=
  match inp with
  | .exn => false
  | _ => true

/-- The sequence of message numbers that start a new accumulation during the
scan, in page order: a reference recursion used to state order-preservation. -/
def startNumbers : List PageInput → Nat → List Nat
  | [], _ => []
  | p :: ps, cur =>
    match pageMatch p with
    | some nt =>
      if nt.1 ≠ cur then nt.1 :: startNumbers ps nt.1 else startNumbers ps cur
    | none => startNumbers ps cur

/-- The total declared by the last marker occurring on one of the given
pages (in page order), if any: the quantity claim P6 speaks about. -/
def lastDeclaredTotal (inputs : List PageInput) (pages : List Nat) : Option Nat :=
  (pages.filterMap (fun i =>
    (inputs.get? i).bind (fun inp => (pageMatch inp).map (fun nt => nt.2)))).getLast?

/-- The content a path holds after all writes: the last file written under
that name (each write opens the path with mode `wb`, truncating). -/
def lastWrite (name : List Char) (files : List GeneratedFile) : Option GeneratedFile :=
  (files.filter (fun g => decide (fileName g = name))).getLast?

/-- The text `Message <n> of <k>`, for stating detector properties. -/
def markerChars (n k : Nat) : List Char :=
  ['M', 'e', 's', 's', 'a', 'g', 'e', ' '] ++ toDec n ++ [' ', 'o', 'f', ' '] ++ toDec k

/-- Every page index recorded in the state (in emitted files or in the
current accumulation) is at least `m`. -/
def stIdxGe (m : Nat) (st : SplitState) : Prop :=
  (∀ g ∈ st.generated_files, ∀ x ∈ g.pages, m ≤ x) ∧
  (∀ x ∈ st.pages_for_current_message, m ≤ x)

/-- The message numbers of detected markers, keeping only the first
occurrence of each number, in page order: the "order in which their
message numbers were first encountered" of claim C5. -/
def firstEncounteredNumbers : List PageInput → List Nat → List Nat
  | [], _ => []
  | p :: ps, seen =>
    match pageMatch p with
    | some nt =>
      if nt.1 ∈ seen then firstEncounteredNumbers ps seen
      else nt.1 :: firstEncounteredNumbers ps (nt.1 :: seen)
    | none => firstEncounteredNumbers ps seen

/-- The message numbers of the emitted files followed by the number of the
in-progress accumulation (if any): the emission order tracked during the
walk. -/
def pendingNumbers (st : SplitState) : List Nat :=
  st.generated_files.map (fun g => g.number) ++
    (if st.pages_for_current_message.isEmpty then []
     else [st.current_message_number])

/-- How many times page `p` is stored in the state (emitted files plus the
current accumulation). -/
def countSt (p : Nat) (st : SplitState) : Nat :=
  pageCount st.generated_files p + st.pages_for_current_message.count p

/-- The partition invariant after processing pages `0,...,i-1`, where the
first marker sits on page `f`, assuming a message is already active. -/
structure InvP (f i : Nat) (st : SplitState) : Prop where
  bound : ∀ g ∈ st.generated_files, ∀ x ∈ g.pages, x < i
  boundAcc : ∀ x ∈ st.pages_for_current_message, x < i
  sorted : ∀ g ∈ st.generated_files, List.Pairwise (· < ·) g.pages
  sortedAcc : List.Pairwise (· < ·) st.pages_for_current_message
  lo : ∀ p, p < f → countSt p st = 0
  mid : ∀ p, f ≤ p → p < i → countSt p st = 1
  cur : 0 < st.current_message_number
  accNe : st.pages_for_current_message ≠ []

/-- Invariant for the total-resolution argument: after processing pages
`0,...,i-1` of `inputs`, the reported total equals the total declared by
the last marker attributed to the in-progress accumulation's own pages,
and it tracks the last match seen. -/
structure InvT (inputs : List PageInput) (i : Nat) (st : SplitState) : Prop where
  t_pages : st.pages_for_current_message ≠ [] →
    lastDeclaredTotal inputs st.pages_for_current_message =
      some st.total_messages_reported
  t_last : ∀ nt, st.last_match = some nt → st.total_messages_reported = nt.2
  t_lsome : st.pages_for_current_message ≠ [] → st.last_match.isSome = true
  t_act : 0 < st.current_message_number → st.pages_for_current_message ≠ []
  t_bound : ∀ x ∈ st.pages_for_current_message, x < i

/-! ### Lemmas about the character classes and decimal rendering -/

theorem isDigitCh_iff (c : Char) : isDigitCh c = true ↔ 48 ≤ c.toNat ∧ c.toNat ≤ 57 := by
  simp [isDigitCh]

theorem isPySpace_eq_false_of_digit (c : Char) (h : isDigitCh c = true) :
    isPySpace c = false := by
  rw [isDigitCh_iff] at h
  simp only [isPySpace, Bool.or_eq_false_iff, Bool.and_eq_false_iff,
    decide_eq_false_iff_not]
  omega

theorem digit_char_val (d : Nat) (h : d < 10) :
    isDigitCh (Char.ofNat (48 + d)) = true ∧ digitVal (Char.ofNat (48 + d)) = d := by
  interval_cases d <;> exact ⟨rfl, rfl⟩

theorem toDec_of_lt (n : Nat) (h : n < 10) : toDec n = [Char.ofNat (48 + n)] := by
  simp [toDec, toDecAux, h]

theorem toDecAux_eq (n : Nat) : ∀ fuel acc, n < fuel →
    toDecAux fuel n acc = toDec n ++ acc := by
  induction n using Nat.strong_induction_on with
  | _ n ih =>
    intro fuel acc hfuel
    match fuel with
    | f + 1 =>
      by_cases h10 : n < 10
      · simp [toDecAux, h10, toDec_of_lt n h10]
      · have hdiv : n / 10 < n := Nat.div_lt_self (by omega) (by omega)
        have hstep : toDecAux (f + 1) n acc =
            toDecAux f (n / 10) (Char.ofNat (48 + n % 10) :: acc) := by
          simp [toDecAux, h10]
        have hx : toDec n = toDec (n / 10) ++ [Char.ofNat (48 + n % 10)] := by
          have : toDec n = toDecAux n (n / 10) [Char.ofNat (48 + n % 10)] := by
            simp [toDec, toDecAux, h10]
          rw [this, ih (n / 10) hdiv n [Char.ofNat (48 + n % 10)] (by omega)]
        rw [hstep, ih (n / 10) hdiv f (Char.ofNat (48 + n % 10) :: acc) (by omega), hx]
        simp

theorem toDec_step (n : Nat) (h : ¬ n < 10) :
    toDec n = toDec (n / 10) ++ [Char.ofNat (48 + n % 10)] := by
  have hdiv : n / 10 < n := Nat.div_lt_self (by omega) (by omega)
  have : toDec n = toDecAux n (n / 10) [Char.ofNat (48 + n % 10)] := by
    simp [toDec, toDecAux, h]
  rw [this, toDecAux_eq (n / 10) n [Char.ofNat (48 + n % 10)] (by omega)]

theorem toDec_all_digit (n : Nat) : ∀ c ∈ toDec n, isDigitCh c = true := by
  induction n using Nat.strong_induction_on with
  | _ n ih =>
    by_cases h10 : n < 10
    · rw [toDec_of_lt n h10]
      intro c hc
      rw [List.mem_singleton] at hc
      subst hc
      exact (digit_char_val n h10).1
    · rw [toDec_step n h10]
      intro c hc
      rcases List.mem_append.mp hc with hc | hc
      · exact ih (n / 10) (Nat.div_lt_self (by omega) (by omega)) c hc
      · rw [List.mem_singleton] at hc
        subst hc
        exact (digit_char_val (n % 10) (Nat.mod_lt n (by omega))).1

theorem toDec_ne_nil (n : Nat) : toDec n ≠ [] := by
  by_cases h10 : n < 10
  · rw [toDec_of_lt n h10]; simp
  · rw [toDec_step n h10]; simp

theorem digitsVal_append (a : Nat) (xs ys : List Char) :
    digitsVal a (xs ++ ys) = digitsVal (digitsVal a xs) ys := by
  simp [digitsVal, List.foldl_append]

theorem digitsVal_toDec (n : Nat) : digitsVal 0 (toDec n) = n := by
  induction n using Nat.strong_induction_on with
  | _ n ih =>
    by_cases h10 : n < 10
    · rw [toDec_of_lt n h10]
      simp [digitsVal, (digit_char_val n h10).2]
    · rw [toDec_step n h10, digitsVal_append,
        ih (n / 10) (Nat.div_lt_self (by omega) (by omega))]
      simp [digitsVal, (digit_char_val (n % 10) (Nat.mod_lt n (by omega))).2]
      omega

theorem toDec_injective (a b : Nat) (h : toDec a = toDec b) : a = b := by
  have := digitsVal_toDec a
  rw [h, digitsVal_toDec b] at this
  omega

/-! ### Lemmas about the pattern matcher -/

theorem dropLit_append (l r : List Char) : dropLit l (l ++ r) = some r := by
  induction l with
  | nil => rfl
  | cons c cs ih => simp [dropLit, ih]

theorem spanP_all_stop (p : Char → Bool) :
    ∀ xs ys, (∀ c ∈ xs, p c = true) →
      (∀ h, ys.head? = some h → p h = false) →
      spanP p (xs ++ ys) = (xs, ys) := by
  intro xs
  induction xs with
  | nil =>
    intro ys _ hstop
    match ys with
    | [] => rfl
    | y :: ys' => simp [spanP, hstop y rfl]
  | cons x xs ih =>
    intro ys hall hstop
    have hx : p x = true := hall x (by simp)
    simp [spanP, hx, ih ys (fun c hc => hall c (by simp [hc])) hstop]

theorem message_pattern_search_nil : message_pattern_search [] = none := rfl

theorem message_pattern_search_cons (c : Char) (rest : List Char) :
    message_pattern_search (c :: rest) =
      match matchHere (c :: rest) with
      | some r => some r
      | none => message_pattern_search rest := rfl

theorem matchHere_marker_gen (n k : Nat) (trail : List Char)
    (htrail : ∀ h, trail.head? = some h → isDigitCh h = false) :
    matchHere (markerChars n k ++ trail) = some (n, k) := by
  obtain ⟨dn, dns, hdn⟩ : ∃ d ds, toDec n = d :: ds := by
    match h : toDec n with
    | [] => exact absurd h (toDec_ne_nil n)
    | d :: ds => exact ⟨d, ds, rfl⟩
  obtain ⟨dk, dks, hdk⟩ : ∃ d ds, toDec k = d :: ds := by
    match h : toDec k with
    | [] => exact absurd h (toDec_ne_nil k)
    | d :: ds => exact ⟨d, ds, rfl⟩
  have hshape : markerChars n k ++ trail =
      ['M', 'e', 's', 's', 'a', 'g', 'e'] ++
        (' ' :: (toDec n ++ (' ' :: ('o' :: 'f' :: (' ' :: (toDec k ++ trail)))))) := by
    simp [markerChars]
  have hs1 : spanP isPySpace
      (' ' :: (toDec n ++ (' ' :: ('o' :: 'f' :: (' ' :: (toDec k ++ trail)))))) =
      ([' '], toDec n ++ (' ' :: ('o' :: 'f' :: (' ' :: (toDec k ++ trail))))) := by
    have := spanP_all_stop isPySpace [' ']
      (toDec n ++ (' ' :: ('o' :: 'f' :: (' ' :: (toDec k ++ trail)))))
      (by intro c hc; rw [List.mem_singleton] at hc; subst hc; rfl)
      (by
        intro h hh
        rw [hdn] at hh
        simp at hh
        subst hh
        exact isPySpace_eq_false_of_digit dn (toDec_all_digit n dn (by rw [hdn]; simp)))
    simpa using this
  have hs2 : spanP isDigitCh
      (toDec n ++ (' ' :: ('o' :: 'f' :: (' ' :: (toDec k ++ trail))))) =
      (toDec n, ' ' :: ('o' :: 'f' :: (' ' :: (toDec k ++ trail)))) :=
    spanP_all_stop isDigitCh (toDec n)
      (' ' :: ('o' :: 'f' :: (' ' :: (toDec k ++ trail))))
      (toDec_all_digit n)
      (by intro h hh; simp at hh; subst hh; rfl)
  have hs3 : spanP isPySpace (' ' :: ('o' :: 'f' :: (' ' :: (toDec k ++ trail)))) =
      ([' '], 'o' :: 'f' :: (' ' :: (toDec k ++ trail))) := by
    have := spanP_all_stop isPySpace [' '] ('o' :: 'f' :: (' ' :: (toDec k ++ trail)))
      (by intro c hc; rw [List.mem_singleton] at hc; subst hc; rfl)
      (by intro h hh; simp at hh; subst hh; rfl)
    simpa using this
  have hs4 : dropLit ['o', 'f'] ('o' :: 'f' :: (' ' :: (toDec k ++ trail))) =
      some (' ' :: (toDec k ++ trail)) :=
    dropLit_append ['o', 'f'] (' ' :: (toDec k ++ trail))
  have hs5 : spanP isPySpace (' ' :: (toDec k ++ trail)) =
      ([' '], toDec k ++ trail) := by
    have := spanP_all_stop isPySpace [' '] (toDec k ++ trail)
      (by intro c hc; rw [List.mem_singleton] at hc; subst hc; rfl)
      (by
        intro h hh
        rw [hdk] at hh
        simp at hh
        subst hh
        exact isPySpace_eq_false_of_digit dk (toDec_all_digit k dk (by rw [hdk]; simp)))
    simpa using this
  have hs6 : spanP isDigitCh (toDec k ++ trail) = (toDec k, trail) :=
    spanP_all_stop isDigitCh (toDec k) trail (toDec_all_digit k) htrail
  rw [hshape]
  simp only [matchHere, dropLit_append, hs1, hs2, hs3, hs4, hs5, hs6]
  simp [hdn, hdk]
  exact ⟨by rw [← hdn]; exact digitsVal_toDec n, by rw [← hdk]; exact digitsVal_toDec k⟩

theorem matchHere_marker (n k : Nat) : matchHere (markerChars n k) = some (n, k) := by
  have := matchHere_marker_gen n k [] (by intro h hh; simp at hh)
  simpa using this

theorem message_pattern_search_marker (n k : Nat) :
    message_pattern_search (markerChars n k) = some (n, k) := by
  have hcons : markerChars n k =
      'M' :: (['e', 's', 's', 'a', 'g', 'e', ' '] ++ toDec n ++
        [' ', 'o', 'f', ' '] ++ toDec k) := by
    simp [markerChars]
  rw [hcons, message_pattern_search_cons, ← hcons, matchHere_marker]

theorem message_pattern_search_marker_pad (n k a b : Nat) :
    message_pattern_search (markerChars n k ++ (' ' :: markerChars a b)) =
      some (n, k) := by
  have hmatch : matchHere (markerChars n k ++ (' ' :: markerChars a b)) =
      some (n, k) :=
    matchHere_marker_gen n k (' ' :: markerChars a b)
      (by intro h hh; simp at hh; subst hh; rfl)
  have hcons : markerChars n k ++ (' ' :: markerChars a b) =
      'M' :: (['e', 's', 's', 'a', 'g', 'e', ' '] ++ toDec n ++
        [' ', 'o', 'f', ' '] ++ toDec k ++ (' ' :: markerChars a b)) := by
    simp [markerChars]
  rw [hcons, message_pattern_search_cons, ← hcons, hmatch]

theorem search_ne_none_of_some (t : List Char) (nt : Nat × Nat)
    (h : message_pattern_search t = some nt) : t ≠ [] := by
  intro he
  subst he
  exact absurd h (by simp [message_pattern_search_nil])

/-! ### Branch characterizations of the page-loop body -/

theorem total_update_eq (v T : Nat) :
    (if v = 0 then T else if v ≠ T then T else v) = T := by
  by_cases h0 : v = 0
  · simp [h0]
  · by_cases hT : v = T
    · simp [h0, hT]
    · simp [h0, hT]

theorem isEmpty_eq_false_of_search (t : List Char) (nt : Nat × Nat)
    (h : message_pattern_search t = some nt) : t.isEmpty = false := by
  cases t with
  | nil => exact absurd h (by simp [message_pattern_search_nil])
  | cons a l => rfl

/-- The page-loop body on a page carrying a marker `(n, T)`. -/
theorem processPage_match (st : SplitState) (idx : Nat) (t : List Char) (n T : Nat)
    (h : message_pattern_search t = some (n, T)) :
    processPage st idx (.extracted t) =
      if n ≠ st.current_message_number then
        if st.pages_for_current_message.isEmpty then
          { st with total_messages_reported := T
                    last_match := some (n, T)
                    current_message_number := n
                    pages_for_current_message := [idx] }
        else
          { st with total_messages_reported := T
                    last_match := some (n, T)
                    generated_files := st.generated_files ++
                      [⟨st.current_message_number, .num T,
                        st.pages_for_current_message⟩]
                    current_message_number := n
                    pages_for_current_message := [idx] }
      else
        { st with total_messages_reported := T
                  last_match := some (n, T)
                  pages_for_current_message :=
                    if idx ∈ st.pages_for_current_message then
                      st.pages_for_current_message
                    else st.pages_for_current_message ++ [idx] } := by
  simp only [processPage, isEmpty_eq_false_of_search t (n, T) h, h, Bool.false_eq_true,
    if_false, total_update_eq]

/-- The page-loop body on a markerless page while no message is active:
the page is left unattributed. -/
theorem processPage_noMark_zero (st : SplitState) (idx : Nat) (inp : PageInput)
    (hm : pageMatch inp = none) (h0 : st.current_message_number = 0) :
    processPage st idx inp = { st with skipped := st.skipped + 1 } := by
  cases inp with
  | exn => simp [processPage, h0]
  | failed => simp [processPage, h0]
  | extracted t =>
    by_cases he : t.isEmpty
    · simp [processPage, he, h0]
    · simp only [pageMatch] at hm
      simp [processPage, he, hm, h0]

/-- The page-loop body on a markerless page (that does not raise) while a
message is active: the page continues the active message. -/
theorem processPage_noMark_pos (st : SplitState) (idx : Nat) (inp : PageInput)
    (hm : pageMatch inp = none) (hx : inp ≠ .exn)
    (h0 : 0 < st.current_message_number) :
    processPage st idx inp =
      { st with pages_for_current_message :=
          st.pages_for_current_message ++ [idx] } := by
  cases inp with
  | exn => exact absurd rfl hx
  | failed => simp [processPage, h0]
  | extracted t =>
    by_cases he : t.isEmpty
    · simp [processPage, he, h0]
    · simp only [pageMatch] at hm
      simp [processPage, he, hm, h0]

/-- A page whose processing raises, while a message is active, is dropped. -/
theorem processPage_exn_pos (st : SplitState) (idx : Nat)
    (h0 : 0 < st.current_message_number) :
    processPage st idx .exn = st := by
  simp [processPage, Nat.pos_iff_ne_zero.mp h0]

/-- The loop body only ever appends to the list of generated files:
a file, once written, is never modified or removed. -/
theorem processPage_files_prefix (st : SplitState) (idx : Nat) (inp : PageInput) :
    ∃ gs, (processPage st idx inp).generated_files = st.generated_files ++ gs := by
  cases inp with
  | exn =>
    by_cases h0 : st.current_message_number = 0 <;> exact ⟨[], by simp [processPage, h0]⟩
  | failed =>
    by_cases h0 : 0 < st.current_message_number <;> exact ⟨[], by simp [processPage, h0]⟩
  | extracted t =>
    by_cases he : t.isEmpty
    · by_cases h0 : 0 < st.current_message_number <;>
        exact ⟨[], by simp [processPage, he, h0]⟩
    · match hs : message_pattern_search t with
      | none =>
        by_cases h0 : 0 < st.current_message_number <;>
          exact ⟨[], by simp [processPage, he, hs, h0]⟩
      | some (n, T) =>
        rw [processPage_match st idx t n T hs]
        by_cases hn : n ≠ st.current_message_number
        · by_cases hp : st.pages_for_current_message.isEmpty
          · exact ⟨[], by simp [hn, hp]⟩
          · exact ⟨[⟨st.current_message_number, .num T, st.pages_for_current_message⟩],
              by simp [hn, hp]⟩
        · exact ⟨[], by simp [hn]⟩

/-! ### Run-level lemmas -/

theorem runFrom_append (xs ys : List PageInput) :
    ∀ i st, runFrom i (xs ++ ys) st = runFrom (i + xs.length) ys (runFrom i xs st) := by
  induction xs with
  | nil => intro i st; simp [runFrom]
  | cons x xs ih =>
    intro i st
    show runFrom (i + 1) (xs ++ ys) (processPage st i x) =
      runFrom (i + (x :: xs).length) ys (runFrom (i + 1) xs (processPage st i x))
    rw [ih (i + 1) (processPage st i x)]
    have h : i + 1 + xs.length = i + (x :: xs).length := by
      simp [List.length_cons]; omega
    rw [h]

/-- A run over markerless pages while no message is active only counts
skipped pages. -/
theorem runFrom_noMark (ps : List PageInput) :
    ∀ i st, ps.all noMark = true → st.current_message_number = 0 →
      runFrom i ps st = { st with skipped := st.skipped + ps.length } := by
  induction ps with
  | nil => intro i st _ _; simp [runFrom]
  | cons p ps ih =>
    intro i st hall h0
    simp only [List.all_cons, Bool.and_eq_true] at hall
    have hm : pageMatch p = none := by
      have := hall.1
      simp only [noMark, Option.isNone_iff_eq_none] at this
      exact this
    rw [runFrom, processPage_noMark_zero st i p hm h0,
      ih (i + 1) { st with skipped := st.skipped + 1 } hall.2 h0]
    have h : st.skipped + 1 + ps.length = st.skipped + (p :: ps).length := by
      simp [List.length_cons]; omega
    rw [h]

/-- While every detected marker declares message number zero, the current
message number stays zero and no file is ever written. -/
theorem runFrom_zeroMarks (ps : List PageInput) :
    ∀ i st, ps.all marksZero = true → st.current_message_number = 0 →
      (runFrom i ps st).current_message_number = 0 ∧
      (runFrom i ps st).generated_files = st.generated_files := by
  induction ps with
  | nil => intro i st _ _; exact ⟨by assumption, rfl⟩
  | cons p ps ih =>
    intro i st hall h0
    simp only [List.all_cons, Bool.and_eq_true] at hall
    rw [runFrom]
    match hm : pageMatch p with
    | none =>
      rw [processPage_noMark_zero st i p hm h0]
      exact ih (i + 1) _ hall.2 h0
    | some (n, T) =>
      have hn : n = 0 := by
        have := hall.1
        rw [marksZero, hm] at this
        simpa using this
      subst hn
      match p, hm with
      | .extracted t, hm =>
        simp only [pageMatch] at hm
        rw [processPage_match st i t 0 T hm]
        have hcond : ¬ (0 ≠ st.current_message_number) := by simp [h0]
        rw [if_neg hcond]
        exact ih (i + 1) _ hall.2 h0

/-- Once a message is active and every remaining detected marker declares a
nonzero number, the skipped-page count is frozen and a message stays
active. -/
theorem runFrom_skip_frozen (ps : List PageInput) :
    ∀ i st, ps.all marksNonzero = true → 0 < st.current_message_number →
      (runFrom i ps st).skipped = st.skipped ∧
      0 < (runFrom i ps st).current_message_number := by
  induction ps with
  | nil => intro i st _ h0; exact ⟨rfl, h0⟩
  | cons p ps ih =>
    intro i st hall h0
    simp only [List.all_cons, Bool.and_eq_true] at hall
    rw [runFrom]
    match hx : p with
    | .exn =>
      rw [processPage_exn_pos st i h0]
      exact ih (i + 1) st hall.2 h0
    | .failed =>
      rw [processPage_noMark_pos st i .failed rfl (by intro h; cases h) h0]
      exact ih (i + 1) _ hall.2 h0
    | .extracted t =>
      match hm : message_pattern_search t with
      | none =>
        rw [processPage_noMark_pos st i (.extracted t) hm (by intro h; cases h) h0]
        exact ih (i + 1) _ hall.2 h0
      | some (n, T) =>
        have hn : n ≠ 0 := by
          have := hall.1
          rw [marksNonzero] at this
          simp only [pageMatch, hm] at this
          simpa using this
        rw [processPage_match st i t n T hm]
        by_cases hne : n ≠ st.current_message_number
        · by_cases hp : st.pages_for_current_message.isEmpty
          · rw [if_pos hne, if_pos hp]
            exact ih (i + 1) _ hall.2 (Nat.pos_of_ne_zero hn)
          · rw [if_pos hne, if_neg hp]
            exact ih (i + 1) _ hall.2 (Nat.pos_of_ne_zero hn)
        · rw [if_neg hne]
          exact ih (i + 1) _ hall.2 h0

/-! ### First-marker position and finalization lemmas -/

theorem firstMarkerIdx_none (inputs : List PageInput)
    (h : firstMarkerIdx inputs = none) : inputs.all noMark = true := by
  induction inputs with
  | nil => rfl
  | cons p ps ih =>
    by_cases hp : (pageMatch p).isSome
    · simp [firstMarkerIdx, hp] at h
    · simp only [firstMarkerIdx, hp, Bool.false_eq_true, if_false,
        Option.map_eq_none'] at h
      simp only [List.all_cons, Bool.and_eq_true]
      exact ⟨by simp [noMark, Option.isNone_iff_eq_none,
        Option.not_isSome_iff_eq_none.mp hp], ih h⟩

theorem firstMarkerIdx_some (inputs : List PageInput) :
    ∀ f, firstMarkerIdx inputs = some f →
      ∃ pre p post, inputs = pre ++ p :: post ∧ pre.length = f ∧
        pre.all noMark = true ∧ (pageMatch p).isSome = true := by
  induction inputs with
  | nil => intro f h; simp [firstMarkerIdx] at h
  | cons p ps ih =>
    intro f h
    by_cases hp : (pageMatch p).isSome
    · simp only [firstMarkerIdx, hp, if_true, Option.some_inj] at h
      exact ⟨[], p, ps, by simp, by simp [← h], rfl, hp⟩
    · simp only [firstMarkerIdx, hp, Bool.false_eq_true, if_false,
        Option.map_eq_some'] at h
      obtain ⟨f', hf', hff⟩ := h
      obtain ⟨pre, q, post, heq, hlen, hall, hq⟩ := ih f' hf'
      refine ⟨p :: pre, q, post, by simp [heq], by simp [hlen, ← hff], ?_, hq⟩
      simp only [List.all_cons, Bool.and_eq_true]
      exact ⟨by simp [noMark, Option.isNone_iff_eq_none,
        Option.not_isSome_iff_eq_none.mp hp], hall⟩

theorem finalize_of_inactive (st : SplitState)
    (h : st.pages_for_current_message = [] ∨ st.current_message_number = 0) :
    finalize st = st := by
  rcases h with h | h
  · simp [finalize, h]
  · simp [finalize, h]

theorem finalize_of_active (st : SplitState)
    (h1 : st.pages_for_current_message ≠ [])
    (h2 : 0 < st.current_message_number) :
    ∃ tot, finalize st =
      { st with generated_files := st.generated_files ++
          [⟨st.current_message_number, tot, st.pages_for_current_message⟩] } := by
  have he : st.pages_for_current_message.isEmpty = false := by
    cases hp : st.pages_for_current_message with
    | nil => exact absurd hp h1
    | cons a l => rfl
  refine ⟨if st.total_messages_reported = 0 then
      (match st.last_match with
       | some nt => TotalTag.num nt.2
       | none => TotalTag.unknown)
    else TotalTag.num st.total_messages_reported, ?_⟩
  simp [finalize, he, h2]

theorem finalize_skipped (st : SplitState) : (finalize st).skipped = st.skipped := by
  rw [finalize]
  by_cases h : ¬ st.pages_for_current_message.isEmpty ∧ 0 < st.current_message_number
  · rw [if_pos h]
  · rw [if_neg h]

/-! ### Claim C3 -/

/-- Counterexample to claim C3 as stated: the detector reports a match on
`Message 0 of 5` (message number `0` is not a positive integer) and on
`Message 007 of 12` (a digit run with leading zeros), contradicting "a
match only when both digit runs parse as positive integers, and a pattern
whose digit run has leading zeros ... is not a match". -/
theorem claim_C3_counterexample :
    message_pattern_search "Message 0 of 5".toList = some (0, 5) ∧
    ¬ 0 < (0 : Nat) ∧
    message_pattern_search "Message 007 of 12".toList = some (7, 12) := by
  exact ⟨by decide, by decide, by decide⟩

/-- Claim C3, amended: the detector matches the pattern for every pair of
decimal digit runs, with no positivity or leading-zero restriction — the
runs are parsed as decimal integers — and the first occurrence in text
order wins (a second occurrence later in the text does not change the
result). -/
theorem claim_C3_amended (n k a b : Nat) :
    message_pattern_search (markerChars n k) = some (n, k) ∧
    message_pattern_search (markerChars n k ++ (' ' :: markerChars a b)) =
      some (n, k) := by
  exact ⟨message_pattern_search_marker n k, message_pattern_search_marker_pad n k a b⟩

/-! ### Claim C4 -/

/-- Claim C4: a page whose extracted text is the empty string is processed
exactly like a page with text but no marker: the resulting state is the
same as for any markerless text; with no active message it only counts
toward the skipped-page count, with an active message it is appended as a
continuation. -/
theorem claim_C4 (st : SplitState) (idx : Nat) (t : List Char)
    (hm : message_pattern_search t = none) :
    processPage st idx (.extracted []) = processPage st idx (.extracted t) ∧
    (st.current_message_number = 0 →
      processPage st idx (.extracted []) = { st with skipped := st.skipped + 1 }) ∧
    (0 < st.current_message_number →
      processPage st idx (.extracted []) =
        { st with pages_for_current_message :=
            st.pages_for_current_message ++ [idx] }) := by
  have hm0 : pageMatch (.extracted ([] : List Char)) = none := rfl
  have hmt : pageMatch (.extracted t) = none := hm
  refine ⟨?_, ?_, ?_⟩
  · by_cases h0 : st.current_message_number = 0
    · rw [processPage_noMark_zero st idx _ hm0 h0,
        processPage_noMark_zero st idx _ hmt h0]
    · have hpos : 0 < st.current_message_number := Nat.pos_of_ne_zero h0
      rw [processPage_noMark_pos st idx _ hm0 (by intro h; cases h) hpos,
        processPage_noMark_pos st idx _ hmt (by intro h; cases h) hpos]
  · intro h0
    exact processPage_noMark_zero st idx _ hm0 h0
  · intro hpos
    exact processPage_noMark_pos st idx _ hm0 (by intro h; cases h) hpos

/-- Witness for C4 at concrete inputs. -/
theorem claim_C4_witness :
    processPage initState 0 (.extracted []) =
      processPage initState 0 (.extracted "no marker".toList) ∧
    processPage initState 0 (.extracted []) =
      { initState with skipped := initState.skipped + 1 } ∧
    processPage { initState with
        current_message_number := 3
        pages_for_current_message := [0] } 1 (.extracted []) =
      { initState with
        current_message_number := 3
        pages_for_current_message := [0, 1] } := by
  refine ⟨(claim_C4 initState 0 "no marker".toList (by decide)).1,
    (claim_C4 initState 0 "no marker".toList (by decide)).2.1 rfl, ?_⟩
  have h := (claim_C4 { initState with
      current_message_number := 3
      pages_for_current_message := [0] } 1 "x".toList (by decide)).2.2 (by decide)
  simpa using h

/-! ### Claim C8 -/

/-- Claim C8: a page whose text extraction yields nothing, while a message
is active, is appended to the active message's pages; with no active
message it is left unattributed and counts toward the skipped-page
count. -/
theorem claim_C8 (st : SplitState) (idx : Nat) :
    (0 < st.current_message_number →
      processPage st idx .failed =
        { st with pages_for_current_message :=
            st.pages_for_current_message ++ [idx] }) ∧
    (st.current_message_number = 0 →
      processPage st idx .failed = { st with skipped := st.skipped + 1 }) := by
  constructor
  · intro hpos
    exact processPage_noMark_pos st idx .failed rfl (by intro h; cases h) hpos
  · intro h0
    exact processPage_noMark_zero st idx .failed rfl h0

/-- Witness for C8: a failed-extraction page strictly between two pages of
the active message is appended; one before any message is skipped. -/
theorem claim_C8_witness :
    processPage { initState with
        current_message_number := 2
        pages_for_current_message := [3, 4] } 5 .failed =
      { initState with
        current_message_number := 2
        pages_for_current_message := [3, 4, 5] } ∧
    processPage initState 0 .failed = { initState with skipped := 1 } := by
  constructor
  · have h := (claim_C8 { initState with
      current_message_number := 2
      pages_for_current_message := [3, 4] } 5).1 (by decide)
    simpa using h
  · have h := (claim_C8 initState 0).2 rfl
    simpa using h

/-! ### Claims C7 and C9: runs that never seal a group -/

/-- Shared core for C7 and C9: if every detected marker (if any) declares
message number zero, the walk completes with the current message number
still zero and no file written, so the result is the empty list together
with the distinguished no-messages message. -/
theorem split_empty_of_zeroMarks (inputs : List PageInput)
    (h : inputs.all marksZero = true) :
    (split_messages_pdf inputs).files = [] ∧
    (split_messages_pdf inputs).error = some noMessagesMsg := by
  obtain ⟨hcur, hfiles⟩ := runFrom_zeroMarks inputs 0 initState h rfl
  have hfin : finalize (runFrom 0 inputs initState) = runFrom 0 inputs initState :=
    finalize_of_inactive _ (Or.inr hcur)
  have hempty : (finalize (runFrom 0 inputs initState)).generated_files.isEmpty = true := by
    rw [hfin, hfiles]
    rfl
  constructor
  · simp [split_messages_pdf, hempty]
  · simp [split_messages_pdf, hempty]

/-- Shared helper for C7 and C6: a document with no detected marker
completes the walk with every page skipped and returns the empty file
list with the no-messages message. -/
theorem split_noMark_result (inputs : List PageInput) (h : inputs.all noMark = true) :
    split_messages_pdf inputs = ⟨[], some noMessagesMsg, inputs.length⟩ := by
  have hrun := runFrom_noMark inputs 0 initState h rfl
  have hstate : runFrom 0 inputs initState =
      { initState with skipped := inputs.length } := by
    rw [hrun]
    have h0 : initState.skipped + inputs.length = inputs.length := by
      simp [initState]
    rw [h0]
  have hfin : finalize (runFrom 0 inputs initState) = runFrom 0 inputs initState :=
    finalize_of_inactive _ (Or.inl (by rw [hstate]; rfl))
  unfold split_messages_pdf
  rw [hfin, hstate]
  rfl

/-- Claim C7: a document with zero marker occurrences completes the whole
walk and yields the empty file list together with the specific
no-messages-found message (and hence no group at all, in particular none
with zero pages), rather than a generic failure. -/
theorem claim_C7 (inputs : List PageInput) (h : inputs.all noMark = true) :
    split_messages_pdf inputs = ⟨[], some noMessagesMsg, inputs.length⟩ :=
  split_noMark_result inputs h

/-- Witness for C7 at a concrete markerless document. -/
theorem claim_C7_witness :
    split_messages_pdf
      [.extracted "no marker here".toList, .extracted "still nothing".toList] =
    ⟨[], some noMessagesMsg, 2⟩ :=
  claim_C7 [.extracted "no marker here".toList, .extracted "still nothing".toList]
    (by decide)

/-- Claim C9: when every detected marker declares message number zero, the
markers match but the current message number never leaves zero, no group
is ever sealed, and the function returns the empty list with the
no-messages-found message (the matched pages appear in no output). -/
theorem claim_C9 (inputs : List PageInput) (h : inputs.all marksZero = true) :
    (split_messages_pdf inputs).files = [] ∧
    (split_messages_pdf inputs).error = some noMessagesMsg :=
  split_empty_of_zeroMarks inputs h

/-- Witness for C9: a document whose two markers both read `Message 0 of 3`
really matches the pattern, yet yields the no-messages result. -/
theorem claim_C9_witness :
    message_pattern_search "Message 0 of 3".toList = some (0, 3) ∧
    (split_messages_pdf
      [.extracted "Message 0 of 3".toList, .extracted "x".toList,
       .extracted "Message 0 of 3".toList]).files = [] ∧
    (split_messages_pdf
      [.extracted "Message 0 of 3".toList, .extracted "x".toList,
       .extracted "Message 0 of 3".toList]).error = some noMessagesMsg := by
  refine ⟨by decide, ?_⟩
  exact claim_C9 [.extracted "Message 0 of 3".toList, .extracted "x".toList,
    .extracted "Message 0 of 3".toList] (by decide)

/-! ### The total stamped on the group sealed after the walk -/

theorem lastDeclaredTotal_append_none (inputs : List PageInput) (pages : List Nat)
    (j : Nat)
    (h : (inputs.get? j).bind (fun inp => (pageMatch inp).map (fun nt => nt.2)) = none) :
    lastDeclaredTotal inputs (pages ++ [j]) = lastDeclaredTotal inputs pages := by
  rw [lastDeclaredTotal, lastDeclaredTotal, List.filterMap_append]
  have h1 : List.filterMap
      (fun i => (inputs.get? i).bind (fun inp => (pageMatch inp).map (fun nt => nt.2)))
      [j] = [] := by
    simp only [List.filterMap_cons, h]
    rfl
  rw [h1, List.append_nil]

theorem lastDeclaredTotal_append_some (inputs : List PageInput) (pages : List Nat)
    (j T : Nat)
    (h : (inputs.get? j).bind (fun inp => (pageMatch inp).map (fun nt => nt.2)) = some T) :
    lastDeclaredTotal inputs (pages ++ [j]) = some T := by
  rw [lastDeclaredTotal, List.filterMap_append]
  have h1 : List.filterMap
      (fun i => (inputs.get? i).bind (fun inp => (pageMatch inp).map (fun nt => nt.2)))
      [j] = [T] := by
    simp only [List.filterMap_cons, h]
    rfl
  rw [h1]
  exact List.getLast?_concat _

theorem processPage_invT (inputs : List PageInput) (i : Nat) (st : SplitState)
    (inp : PageInput) (hin : inputs.get? i = some inp)
    (h : InvT inputs i st) : InvT inputs (i + 1) (processPage st i inp) := by
  have hbound1 : ∀ x ∈ st.pages_for_current_message ++ [i], x < i + 1 := by
    intro x hx
    rcases List.mem_append.mp hx with hx | hx
    · have := h.t_bound x hx; omega
    · rw [List.mem_singleton] at hx; omega
  have hboundKeep : ∀ x ∈ st.pages_for_current_message, x < i + 1 := by
    intro x hx
    have := h.t_bound x hx; omega
  cases inp with
  | exn =>
    by_cases h0 : st.current_message_number = 0
    · rw [show processPage st i .exn = { st with skipped := st.skipped + 1 } from
        by simp [processPage, h0]]
      exact { t_pages := h.t_pages, t_last := h.t_last, t_lsome := h.t_lsome
              t_act := h.t_act, t_bound := hboundKeep }
    · rw [processPage_exn_pos st i (Nat.pos_of_ne_zero h0)]
      exact { t_pages := h.t_pages, t_last := h.t_last, t_lsome := h.t_lsome
              t_act := h.t_act, t_bound := hboundKeep }
  | failed =>
    have hbnone : (inputs.get? i).bind
        (fun inp2 => (pageMatch inp2).map (fun nt => nt.2)) = none := by
      rw [hin]; rfl
    by_cases h0 : st.current_message_number = 0
    · rw [processPage_noMark_zero st i .failed rfl h0]
      exact { t_pages := h.t_pages, t_last := h.t_last, t_lsome := h.t_lsome
              t_act := h.t_act, t_bound := hboundKeep }
    · have hpos : 0 < st.current_message_number := Nat.pos_of_ne_zero h0
      have hpne : st.pages_for_current_message ≠ [] := h.t_act hpos
      rw [processPage_noMark_pos st i .failed rfl (by intro hc; cases hc) hpos]
      exact {
        t_pages := fun _ => by
          rw [lastDeclaredTotal_append_none inputs _ i hbnone]
          exact h.t_pages hpne
        t_last := h.t_last
        t_lsome := fun _ => h.t_lsome hpne
        t_act := fun _ => by simp
        t_bound := hbound1 }
  | extracted t =>
    match hm : message_pattern_search t with
    | none =>
      have hpm : pageMatch (.extracted t) = none := hm
      have hbnone : (inputs.get? i).bind
          (fun inp2 => (pageMatch inp2).map (fun nt => nt.2)) = none := by
        rw [hin]
        simp [hpm]
      by_cases h0 : st.current_message_number = 0
      · rw [processPage_noMark_zero st i _ hpm h0]
        exact { t_pages := h.t_pages, t_last := h.t_last, t_lsome := h.t_lsome
                t_act := h.t_act, t_bound := hboundKeep }
      · have hpos : 0 < st.current_message_number := Nat.pos_of_ne_zero h0
        have hpne : st.pages_for_current_message ≠ [] := h.t_act hpos
        rw [processPage_noMark_pos st i _ hpm (by intro hc; cases hc) hpos]
        exact {
          t_pages := fun _ => by
            rw [lastDeclaredTotal_append_none inputs _ i hbnone]
            exact h.t_pages hpne
          t_last := h.t_last
          t_lsome := fun _ => h.t_lsome hpne
          t_act := fun _ => by simp
          t_bound := hbound1 }
    | some (n, T) =>
      have hpm : pageMatch (.extracted t) = some (n, T) := hm
      have hbsome : (inputs.get? i).bind
          (fun inp2 => (pageMatch inp2).map (fun nt => nt.2)) = some T := by
        rw [hin]
        simp [hpm]
      have hsingle : lastDeclaredTotal inputs [i] = some T := by
        have := lastDeclaredTotal_append_some inputs [] i T hbsome
        simpa using this
      rw [processPage_match st i t n T hm]
      by_cases hne : n ≠ st.current_message_number
      · rw [if_pos hne]
        by_cases hp : st.pages_for_current_message.isEmpty
        · rw [if_pos hp]
          exact {
            t_pages := fun _ => hsingle
            t_last := fun nt hnt => by
              have hnt2 : (n, T) = nt := Option.some_inj.mp hnt
              rw [← hnt2]
            t_lsome := fun _ => rfl
            t_act := fun _ => by simp
            t_bound := by
              intro x hx
              rw [List.mem_singleton] at hx
              omega }
        · rw [if_neg hp]
          exact {
            t_pages := fun _ => hsingle
            t_last := fun nt hnt => by
              have hnt2 : (n, T) = nt := Option.some_inj.mp hnt
              rw [← hnt2]
            t_lsome := fun _ => rfl
            t_act := fun _ => by simp
            t_bound := by
              intro x hx
              rw [List.mem_singleton] at hx
              omega }
      · rw [if_neg hne]
        have hmem : i ∉ st.pages_for_current_message := by
          intro hc
          have := h.t_bound i hc
          omega
        rw [if_neg hmem]
        exact {
          t_pages := fun _ => lastDeclaredTotal_append_some inputs _ i T hbsome
          t_last := fun nt hnt => by
            have hnt2 : (n, T) = nt := Option.some_inj.mp hnt
            rw [← hnt2]
          t_lsome := fun _ => rfl
          t_act := fun _ => by simp
          t_bound := hbound1 }

theorem runFrom_invT (inputs : List PageInput) (ps : List PageInput) :
    ∀ i st, (∀ k, ps.get? k = inputs.get? (i + k)) → InvT inputs i st →
      InvT inputs (i + ps.length) (runFrom i ps st) := by
  induction ps with
  | nil => intro i st _ h; exact h
  | cons p ps ih =>
    intro i st hsfx h
    rw [runFrom]
    have hin : inputs.get? i = some p := by
      have h0 := hsfx 0
      simpa using h0.symm
    have hsfx2 : ∀ k, ps.get? k = inputs.get? (i + 1 + k) := by
      intro k
      have hk := hsfx (k + 1)
      have harith : i + (k + 1) = i + 1 + k := by omega
      rw [harith] at hk
      exact hk
    have hN : i + (p :: ps).length = (i + 1) + ps.length := by
      simp [List.length_cons]
      omega
    rw [hN]
    exact ih (i + 1) (processPage st i p) hsfx2 (processPage_invT inputs i st p hin h)

/-- The group sealed after the walk completes is stamped with the total
declared by the last marker attributed to its own pages. -/
theorem finalize_total_eq_lastDeclared (inputs : List PageInput)
    (hpne : (runFrom 0 inputs initState).pages_for_current_message ≠ [])
    (hcur : 0 < (runFrom 0 inputs initState).current_message_number) :
    lastDeclaredTotal inputs
      (runFrom 0 inputs initState).pages_for_current_message =
      some (runFrom 0 inputs initState).total_messages_reported ∧
    finalize (runFrom 0 inputs initState) =
      { runFrom 0 inputs initState with generated_files :=
          (runFrom 0 inputs initState).generated_files ++
            [⟨(runFrom 0 inputs initState).current_message_number,
              TotalTag.num (runFrom 0 inputs initState).total_messages_reported,
              (runFrom 0 inputs initState).pages_for_current_message⟩] } := by
  have hinv := runFrom_invT inputs inputs 0 initState
    (fun k => by rw [Nat.zero_add])
    { t_pages := fun hc => absurd rfl hc
      t_last := fun nt hc => by cases hc
      t_lsome := fun hc => absurd rfl hc
      t_act := fun hc => absurd hc (lt_irrefl 0)
      t_bound := fun x hx => by cases hx }
  refine ⟨hinv.t_pages hpne, ?_⟩
  have hpe : (runFrom 0 inputs initState).pages_for_current_message.isEmpty = false := by
    cases hc : (runFrom 0 inputs initState).pages_for_current_message with
    | nil => exact absurd hc hpne
    | cons a l => rfl
  have htot : (if (runFrom 0 inputs initState).total_messages_reported = 0 then
      (match (runFrom 0 inputs initState).last_match with
       | some nt => TotalTag.num nt.2
       | none => TotalTag.unknown)
    else TotalTag.num (runFrom 0 inputs initState).total_messages_reported) =
      TotalTag.num (runFrom 0 inputs initState).total_messages_reported := by
    by_cases h0 : (runFrom 0 inputs initState).total_messages_reported = 0
    · obtain ⟨nt, hnt⟩ := Option.isSome_iff_exists.mp (hinv.t_lsome hpne)
      have hT := hinv.t_last nt hnt
      rw [if_pos h0, hnt, hT]
    · rw [if_neg h0]
  have hfin : finalize (runFrom 0 inputs initState) =
      { runFrom 0 inputs initState with generated_files :=
          (runFrom 0 inputs initState).generated_files ++
            [⟨(runFrom 0 inputs initState).current_message_number,
              (if (runFrom 0 inputs initState).total_messages_reported = 0 then
                (match (runFrom 0 inputs initState).last_match with
                 | some nt => TotalTag.num nt.2
                 | none => TotalTag.unknown)
              else TotalTag.num (runFrom 0 inputs initState).total_messages_reported),
              (runFrom 0 inputs initState).pages_for_current_message⟩] } := by
    simp [finalize, hpe, hcur]
  rw [hfin, htot]

/-! ### Claim C2 -/

/-- Counterexample to claim C2 as stated: on the document with markers
`Message 1 of 5` then `Message 2 of 7`, the group for message 1 consists
of page 0 alone, the last (indeed only) marker occurrence attributed to
that message declares total `5`, yet the sealed group records total `7`
(rendered as `message_1_of_7.pdf`): the seal uses the most recently
observed total, which here comes from the next message's marker. -/
theorem claim_C2_counterexample :
    (split_messages_pdf [.extracted "Message 1 of 5".toList,
        .extracted "Message 2 of 7".toList]).files =
      [⟨1, .num 7, [0]⟩, ⟨2, .num 7, [1]⟩] ∧
    lastDeclaredTotal [.extracted "Message 1 of 5".toList,
        .extracted "Message 2 of 7".toList] [0] = some 5 ∧
    TotalTag.num 7 ≠ TotalTag.num 5 ∧
    fileName ⟨1, .num 7, [0]⟩ = "message_1_of_7.pdf".toList := by
  exact ⟨by decide, by decide, by decide, by decide⟩

/-- Claim C2, amended: a group sealed mid-scan is stamped with the total
declared by the marker of the page that triggers the seal (the
last-observed total at sealing time), which need not be a marker on the
group's own pages; the group sealed after the walk completes is stamped
with the total declared by the last marker attributed to its own pages;
and the walk only appends to the list of generated files, so a group
already finalized keeps its recorded value. -/
theorem claim_C2_amended (st : SplitState) (idx : Nat) (t : List Char) (n T : Nat)
    (h : message_pattern_search t = some (n, T))
    (hn : n ≠ st.current_message_number)
    (hp : ¬ st.pages_for_current_message.isEmpty) :
    (processPage st idx (.extracted t)).generated_files =
      st.generated_files ++
        [⟨st.current_message_number, .num T, st.pages_for_current_message⟩] ∧
    (∀ (st2 : SplitState) (idx2 : Nat) (inp2 : PageInput),
      ∃ gs, (processPage st2 idx2 inp2).generated_files =
        st2.generated_files ++ gs) ∧
    (∀ inputs : List PageInput,
      (runFrom 0 inputs initState).pages_for_current_message ≠ [] →
      0 < (runFrom 0 inputs initState).current_message_number →
      lastDeclaredTotal inputs
        (runFrom 0 inputs initState).pages_for_current_message =
        some (runFrom 0 inputs initState).total_messages_reported ∧
      finalize (runFrom 0 inputs initState) =
        { runFrom 0 inputs initState with generated_files :=
            (runFrom 0 inputs initState).generated_files ++
              [⟨(runFrom 0 inputs initState).current_message_number,
                TotalTag.num (runFrom 0 inputs initState).total_messages_reported,
                (runFrom 0 inputs initState).pages_for_current_message⟩] }) := by
  refine ⟨?_, ?_, ?_⟩
  · rw [processPage_match st idx t n T h, if_pos hn, if_neg hp]
  · exact fun st2 idx2 inp2 => processPage_files_prefix st2 idx2 inp2
  · exact fun inputs hpne hcur => finalize_total_eq_lastDeclared inputs hpne hcur

/-- Witness for the amended C2: sealing message 1's single page with the
marker `Message 2 of 7` records total 7 even though message 1's own last
marker declared 5; and on the document with markers `Message 1 of 5`,
`Message 1 of 9` the group sealed after the walk is stamped 9, the total
of the last marker attributed to its own pages. -/
theorem claim_C2_witness :
    (processPage { initState with
        current_message_number := 1
        total_messages_reported := 5
        pages_for_current_message := [0]
        last_match := some (1, 5) } 1
      (.extracted "Message 2 of 7".toList)).generated_files =
      [⟨1, .num 7, [0]⟩] ∧
    (∃ gs, (processPage initState 0 .failed).generated_files =
      initState.generated_files ++ gs) ∧
    (lastDeclaredTotal [.extracted "Message 1 of 5".toList,
        .extracted "Message 1 of 9".toList]
      (runFrom 0 [.extracted "Message 1 of 5".toList,
        .extracted "Message 1 of 9".toList] initState).pages_for_current_message =
      some (runFrom 0 [.extracted "Message 1 of 5".toList,
        .extracted "Message 1 of 9".toList] initState).total_messages_reported ∧
      finalize (runFrom 0 [.extracted "Message 1 of 5".toList,
        .extracted "Message 1 of 9".toList] initState) =
        { runFrom 0 [.extracted "Message 1 of 5".toList,
            .extracted "Message 1 of 9".toList] initState with generated_files :=
            (runFrom 0 [.extracted "Message 1 of 5".toList,
              .extracted "Message 1 of 9".toList] initState).generated_files ++
              [⟨(runFrom 0 [.extracted "Message 1 of 5".toList,
                  .extracted "Message 1 of 9".toList] initState).current_message_number,
                TotalTag.num (runFrom 0 [.extracted "Message 1 of 5".toList,
                  .extracted "Message 1 of 9".toList] initState).total_messages_reported,
                (runFrom 0 [.extracted "Message 1 of 5".toList,
                  .extracted "Message 1 of 9".toList]
                  initState).pages_for_current_message⟩] }) := by
  have h := claim_C2_amended { initState with
      current_message_number := 1
      total_messages_reported := 5
      pages_for_current_message := [0]
      last_match := some (1, 5) } 1 "Message 2 of 7".toList 2 7
    (by decide) (by decide) (by decide)
  refine ⟨by simpa using h.1, h.2.1 initState 0 .failed, ?_⟩
  exact h.2.2 [.extracted "Message 1 of 5".toList,
    .extracted "Message 1 of 9".toList] (by decide) (by decide)

/-! ### Lower bounds on the page indices stored in the state -/

theorem processPage_idxGe (m : Nat) (st : SplitState) (idx : Nat) (inp : PageInput)
    (h : stIdxGe m st) (hi : m ≤ idx) : stIdxGe m (processPage st idx inp) := by
  obtain ⟨hfiles, hacc⟩ := h
  have happend : ∀ x ∈ st.pages_for_current_message ++ [idx], m ≤ x := by
    intro x hx
    rcases List.mem_append.mp hx with hx | hx
    · exact hacc x hx
    · rw [List.mem_singleton] at hx
      subst hx
      exact hi
  cases inp with
  | exn =>
    by_cases h0 : st.current_message_number = 0
    · rw [show processPage st idx .exn = { st with skipped := st.skipped + 1 } from
        by simp [processPage, h0]]
      exact ⟨hfiles, hacc⟩
    · rw [processPage_exn_pos st idx (Nat.pos_of_ne_zero h0)]
      exact ⟨hfiles, hacc⟩
  | failed =>
    by_cases h0 : st.current_message_number = 0
    · rw [processPage_noMark_zero st idx .failed rfl h0]
      exact ⟨hfiles, hacc⟩
    · rw [processPage_noMark_pos st idx .failed rfl (by intro hc; cases hc)
        (Nat.pos_of_ne_zero h0)]
      exact ⟨hfiles, happend⟩
  | extracted t =>
    match hm : message_pattern_search t with
    | none =>
      have hpm : pageMatch (.extracted t) = none := hm
      by_cases h0 : st.current_message_number = 0
      · rw [processPage_noMark_zero st idx _ hpm h0]
        exact ⟨hfiles, hacc⟩
      · rw [processPage_noMark_pos st idx _ hpm (by intro hc; cases hc)
          (Nat.pos_of_ne_zero h0)]
        exact ⟨hfiles, happend⟩
    | some (n, T) =>
      rw [processPage_match st idx t n T hm]
      by_cases hn : n ≠ st.current_message_number
      · rw [if_pos hn]
        by_cases hp : st.pages_for_current_message.isEmpty
        · rw [if_pos hp]
          refine ⟨hfiles, ?_⟩
          intro x hx
          rw [List.mem_singleton] at hx
          subst hx
          exact hi
        · rw [if_neg hp]
          constructor
          · intro g hg x hx
            rcases List.mem_append.mp hg with hg | hg
            · exact hfiles g hg x hx
            · rw [List.mem_singleton] at hg
              subst hg
              exact hacc x hx
          · intro x hx
            rw [List.mem_singleton] at hx
            subst hx
            exact hi
      · rw [if_neg hn]
        refine ⟨hfiles, ?_⟩
        by_cases hmem : idx ∈ st.pages_for_current_message
        · rw [if_pos hmem]
          exact hacc
        · rw [if_neg hmem]
          exact happend

theorem runFrom_idxGe (m : Nat) (ps : List PageInput) :
    ∀ i st, stIdxGe m st → m ≤ i → stIdxGe m (runFrom i ps st) := by
  induction ps with
  | nil => intro i st h _; exact h
  | cons p ps ih =>
    intro i st h hi
    rw [runFrom]
    exact ih (i + 1) (processPage st i p) (processPage_idxGe m st i p h hi) (by omega)

theorem finalize_idxGe (m : Nat) (st : SplitState) (h : stIdxGe m st) :
    ∀ g ∈ (finalize st).generated_files, ∀ x ∈ g.pages, m ≤ x := by
  rw [finalize]
  by_cases hc : ¬ st.pages_for_current_message.isEmpty ∧ 0 < st.current_message_number
  · rw [if_pos hc]
    intro g hg x hx
    rcases List.mem_append.mp hg with hg | hg
    · exact h.1 g hg x hx
    · rw [List.mem_singleton] at hg
      subst hg
      exact h.2 x hx
  · rw [if_neg hc]
    exact h.1

/-! ### Projections of the returned result -/

theorem split_skipped_eq (inputs : List PageInput) :
    (split_messages_pdf inputs).skipped =
      (finalize (runFrom 0 inputs initState)).skipped := by
  simp only [split_messages_pdf]
  split
  · rfl
  · rfl

theorem split_files_mem (inputs : List PageInput) (g : GeneratedFile)
    (hg : g ∈ (split_messages_pdf inputs).files) :
    g ∈ (finalize (runFrom 0 inputs initState)).generated_files := by
  simp only [split_messages_pdf] at hg
  revert hg
  split
  · intro hg; cases hg
  · intro hg; exact hg

theorem split_files_of_ne_nil (inputs : List PageInput)
    (h : (finalize (runFrom 0 inputs initState)).generated_files ≠ []) :
    (split_messages_pdf inputs).files =
      (finalize (runFrom 0 inputs initState)).generated_files := by
  have he : (finalize (runFrom 0 inputs initState)).generated_files.isEmpty = false := by
    cases hp : (finalize (runFrom 0 inputs initState)).generated_files with
    | nil => exact absurd hp h
    | cons a l => rfl
  simp only [split_messages_pdf, he]
  rfl

/-! ### Decomposing the first marker page -/

theorem pageMatch_isSome_elim (p : PageInput) (h : (pageMatch p).isSome = true) :
    ∃ t n T, p = .extracted t ∧ message_pattern_search t = some (n, T) := by
  cases p with
  | extracted t =>
    match hm : message_pattern_search t with
    | none =>
      rw [show pageMatch (.extracted t) = none from hm] at h
      cases h
    | some (n, T) => exact ⟨t, n, T, rfl, hm⟩
  | failed => cases h
  | exn => cases h

theorem marksNonzero_elim (t : List Char) (n T : Nat)
    (hm : message_pattern_search t = some (n, T))
    (h : marksNonzero (.extracted t) = true) : n ≠ 0 := by
  rw [marksNonzero] at h
  rw [show pageMatch (.extracted t) = some (n, T) from hm] at h
  exact of_decide_eq_true h

/-! ### Claim C6 -/

/-- Counterexample to claim C6 as stated: on the document with pages
`Message 1 of 2`, `Message 0 of 2`, `blah`, the first detected marker is
on page 0 so no page precedes it, yet the walk leaves page 2 unattributed
with no active message (the `Message 0` marker reset the current message
number to 0, and the source even logs page 2 as "appears before first
message marker"): the skipped count is 1, not 0. -/
theorem claim_C6_counterexample :
    firstMarkerIdx [.extracted "Message 1 of 2".toList,
      .extracted "Message 0 of 2".toList, .extracted "blah".toList] = some 0 ∧
    beforeCount [.extracted "Message 1 of 2".toList,
      .extracted "Message 0 of 2".toList, .extracted "blah".toList] = 0 ∧
    (split_messages_pdf [.extracted "Message 1 of 2".toList,
      .extracted "Message 0 of 2".toList, .extracted "blah".toList]).skipped = 1 ∧
    (1 : Nat) ≠ 0 := by
  exact ⟨by decide, by decide, by decide, by decide⟩

/-- Claim C6, amended: pages preceding the first detected marker appear in
no output file; and provided every detected marker declares a nonzero
message number, the skipped-page count equals exactly the number of pages
preceding the first detected marker. -/
theorem claim_C6 (inputs : List PageInput) :
    (∀ g ∈ (split_messages_pdf inputs).files, ∀ x ∈ g.pages,
      beforeCount inputs ≤ x) ∧
    (inputs.all marksNonzero = true →
      (split_messages_pdf inputs).skipped = beforeCount inputs) := by
  match hf : firstMarkerIdx inputs with
  | none =>
    have hall : inputs.all noMark = true := firstMarkerIdx_none inputs hf
    have hsplit := split_noMark_result inputs hall
    rw [hsplit]
    have hb : beforeCount inputs = inputs.length := by simp [beforeCount, hf]
    constructor
    · intro g hg; cases hg
    · intro _; rw [hb]
  | some f =>
    obtain ⟨pre, p, post, heq, hlen, hpre, hp⟩ := firstMarkerIdx_some inputs f hf
    subst heq
    have hb : beforeCount (pre ++ p :: post) = f := by
      simp [beforeCount, hf]
    have hskv : initState.skipped + pre.length = f := by simp [initState, hlen]
    have hst0 : runFrom 0 pre initState = { initState with skipped := f } := by
      rw [runFrom_noMark pre 0 initState hpre rfl, hskv]
    have hrun0 : runFrom 0 (pre ++ p :: post) initState =
        runFrom (f + 1) post (processPage { initState with skipped := f } f p) := by
      rw [runFrom_append pre (p :: post) 0 initState, hst0]
      have hidx : 0 + pre.length = f := by omega
      rw [hidx, runFrom]
    rw [hb]
    constructor
    · -- unconditional: pages before the first marker land in no output file
      have hge0 : stIdxGe f (processPage { initState with skipped := f } f p) := by
        apply processPage_idxGe f _ f p _ (Nat.le_refl f)
        constructor
        · intro g hg; cases hg
        · intro x hx; cases hx
      have hge := runFrom_idxGe f post (f + 1) _ hge0 (by omega)
      intro g hg x hx
      have hmem := split_files_mem (pre ++ p :: post) g hg
      rw [hrun0] at hmem
      exact finalize_idxGe f _ hge g hmem x hx
    · -- skipped-count equality under the nonzero-markers proviso
      intro hz
      obtain ⟨t, n, T, hpt, hst⟩ := pageMatch_isSome_elim p hp
      subst hpt
      have hzparts : marksNonzero (.extracted t) = true ∧
          post.all marksNonzero = true := by
        rw [List.all_append, List.all_cons] at hz
        simp only [Bool.and_eq_true] at hz
        exact ⟨hz.2.1, hz.2.2⟩
      have hn : n ≠ 0 := marksNonzero_elim t n T hst hzparts.1
      have hmatch := processPage_match { initState with skipped := f } f t n T hst
      have hcond : n ≠ ({ initState with skipped := f } : SplitState).current_message_number := hn
      have hpages : ({ initState with skipped := f } : SplitState).pages_for_current_message.isEmpty = true := rfl
      rw [if_pos hcond, if_pos hpages] at hmatch
      have hfrozen := runFrom_skip_frozen post (f + 1)
        { initState with
          total_messages_reported := T
          last_match := some (n, T)
          current_message_number := n
          pages_for_current_message := [f]
          skipped := f }
        hzparts.2 (Nat.pos_of_ne_zero hn)
      rw [split_skipped_eq, finalize_skipped, hrun0, hmatch]
      exact hfrozen.1

/-- Witness for the amended C6 at a concrete input with one skipped page
before the first marker. -/
theorem claim_C6_witness :
    (∀ g ∈ (split_messages_pdf [.extracted "intro".toList,
        .extracted "Message 1 of 1".toList, .failed]).files, ∀ x ∈ g.pages,
      beforeCount [.extracted "intro".toList,
        .extracted "Message 1 of 1".toList, .failed] ≤ x) ∧
    (split_messages_pdf [.extracted "intro".toList,
        .extracted "Message 1 of 1".toList, .failed]).skipped =
      beforeCount [.extracted "intro".toList,
        .extracted "Message 1 of 1".toList, .failed] :=
  ⟨(claim_C6 [.extracted "intro".toList,
      .extracted "Message 1 of 1".toList, .failed]).1,
    (claim_C6 [.extracted "intro".toList,
      .extracted "Message 1 of 1".toList, .failed]).2 (by decide)⟩

/-! ### Claim C5 -/

theorem split_files_eq (inputs : List PageInput) :
    (split_messages_pdf inputs).files =
      (finalize (runFrom 0 inputs initState)).generated_files := by
  simp only [split_messages_pdf]
  split
  · next h =>
    exact (List.isEmpty_iff.mp h).symm
  · rfl

theorem startNumbers_cons_some (p : PageInput) (ps : List PageInput) (cur n T : Nat)
    (hm : pageMatch p = some (n, T)) :
    startNumbers (p :: ps) cur =
      if n ≠ cur then n :: startNumbers ps n else startNumbers ps cur := by
  rw [startNumbers, hm]

theorem startNumbers_cons_none (p : PageInput) (ps : List PageInput) (cur : Nat)
    (hm : pageMatch p = none) :
    startNumbers (p :: ps) cur = startNumbers ps cur := by
  rw [startNumbers, hm]

theorem runFrom_startNumbers (ps : List PageInput) :
    ∀ i st, ps.all marksNonzero = true →
      (st.pages_for_current_message = [] ↔ st.current_message_number = 0) →
      pendingNumbers (runFrom i ps st) =
        pendingNumbers st ++ startNumbers ps st.current_message_number ∧
      ((runFrom i ps st).pages_for_current_message = [] ↔
        (runFrom i ps st).current_message_number = 0) := by
  induction ps with
  | nil => intro i st _ hiff; exact ⟨by simp [startNumbers, runFrom], hiff⟩
  | cons p ps ih =>
    intro i st hall hiff
    simp only [List.all_cons, Bool.and_eq_true] at hall
    rw [runFrom]
    match hm : pageMatch p with
    | none =>
      have hstart : startNumbers (p :: ps) st.current_message_number =
          startNumbers ps st.current_message_number :=
        startNumbers_cons_none p ps st.current_message_number hm
      rw [hstart]
      by_cases h0 : st.current_message_number = 0
      · rw [processPage_noMark_zero st i p hm h0]
        have := ih (i + 1) { st with skipped := st.skipped + 1 } hall.2
          (by simpa using hiff)
        refine ⟨?_, this.2⟩
        rw [this.1]
        rfl
      · have hpos : 0 < st.current_message_number := Nat.pos_of_ne_zero h0
        have hpne : st.pages_for_current_message ≠ [] := by
          intro hc
          exact h0 (hiff.mp hc)
        have hpne' : st.pages_for_current_message.isEmpty = false := by
          cases hc : st.pages_for_current_message with
          | nil => exact absurd hc hpne
          | cons a l => rfl
        cases p with
        | exn =>
          rw [processPage_exn_pos st i hpos]
          exact ih (i + 1) st hall.2 hiff
        | failed =>
          rw [processPage_noMark_pos st i .failed rfl (by intro hc; cases hc) hpos]
          have := ih (i + 1)
            { st with pages_for_current_message :=
                st.pages_for_current_message ++ [i] } hall.2
            (by
              constructor
              · intro hc
                simp at hc
              · intro hc
                exact absurd hc h0)
          refine ⟨?_, this.2⟩
          rw [this.1]
          have hne2 : (st.pages_for_current_message ++ [i]).isEmpty = false := by
            cases hc : st.pages_for_current_message ++ [i] with
            | nil => simp at hc
            | cons a l => rfl
          simp [pendingNumbers, hne2, hpne']
        | extracted t =>
          rw [processPage_noMark_pos st i (.extracted t) hm (by intro hc; cases hc) hpos]
          have := ih (i + 1)
            { st with pages_for_current_message :=
                st.pages_for_current_message ++ [i] } hall.2
            (by
              constructor
              · intro hc
                simp at hc
              · intro hc
                exact absurd hc h0)
          refine ⟨?_, this.2⟩
          rw [this.1]
          have hne2 : (st.pages_for_current_message ++ [i]).isEmpty = false := by
            cases hc : st.pages_for_current_message ++ [i] with
            | nil => simp at hc
            | cons a l => rfl
          simp [pendingNumbers, hne2, hpne']
    | some (n, T) =>
      obtain ⟨t, n', T', hpt, hst⟩ := pageMatch_isSome_elim p (by rw [hm]; rfl)
      subst hpt
      have hnn : n' = n ∧ T' = T := by
        rw [show pageMatch (.extracted t) = some (n', T') from hst] at hm
        have := Option.some_inj.mp hm
        exact ⟨congrArg Prod.fst this, congrArg Prod.snd this⟩
      rw [hnn.1, hnn.2] at hst
      have hn0 : n ≠ 0 := by
        have := hall.1
        rw [marksNonzero, hm] at this
        exact of_decide_eq_true this
      rw [processPage_match st i t n T hst]
      by_cases hn : n ≠ st.current_message_number
      · have hstart : startNumbers (.extracted t :: ps) st.current_message_number =
            n :: startNumbers ps n := by
          rw [startNumbers_cons_some (.extracted t) ps st.current_message_number n T hm,
            if_pos hn]
        rw [hstart, if_pos hn]
        by_cases hp : st.pages_for_current_message.isEmpty
        · rw [if_pos hp]
          have := ih (i + 1)
            { st with
              total_messages_reported := T
              last_match := some (n, T)
              current_message_number := n
              pages_for_current_message := [i] } hall.2
            (by
              constructor
              · intro hc; simp at hc
              · intro hc; exact absurd hc hn0)
          refine ⟨?_, this.2⟩
          rw [this.1]
          simp only [pendingNumbers, hp]
          simp
        · rw [if_neg hp]
          have := ih (i + 1)
            { st with
              total_messages_reported := T
              last_match := some (n, T)
              generated_files := st.generated_files ++
                [⟨st.current_message_number, .num T, st.pages_for_current_message⟩]
              current_message_number := n
              pages_for_current_message := [i] } hall.2
            (by
              constructor
              · intro hc; simp at hc
              · intro hc; exact absurd hc hn0)
          refine ⟨?_, this.2⟩
          rw [this.1]
          have hp' : st.pages_for_current_message.isEmpty = false := by
            cases hc : st.pages_for_current_message with
            | nil => rw [hc] at hp; exact absurd rfl hp
            | cons a l => rfl
          simp only [pendingNumbers, hp']
          simp
      · have hstart : startNumbers (.extracted t :: ps) st.current_message_number =
            startNumbers ps st.current_message_number := by
          rw [startNumbers_cons_some (.extracted t) ps st.current_message_number n T hm,
            if_neg hn]
        push_neg at hn
        have hcur0 : st.current_message_number ≠ 0 := by rw [← hn]; exact hn0
        have hpne : st.pages_for_current_message ≠ [] := by
          intro hc
          exact hcur0 (hiff.mp hc)
        have hpne' : st.pages_for_current_message.isEmpty = false := by
          cases hc : st.pages_for_current_message with
          | nil => exact absurd hc hpne
          | cons a l => rfl
        rw [hstart]
        have hcond : ¬ (n ≠ st.current_message_number) := by rw [hn]; simp
        rw [if_neg hcond]
        set newpages := if i ∈ st.pages_for_current_message then
            st.pages_for_current_message
          else st.pages_for_current_message ++ [i] with hnew
        have hnpne : newpages ≠ [] := by
          rw [hnew]
          by_cases hmem : i ∈ st.pages_for_current_message
          · rw [if_pos hmem]; exact hpne
          · rw [if_neg hmem]; simp
        have hnpne' : newpages.isEmpty = false := by
          cases hc : newpages with
          | nil => exact absurd hc hnpne
          | cons a l => rfl
        have := ih (i + 1)
          { st with
            total_messages_reported := T
            last_match := some (n, T)
            pages_for_current_message := newpages } hall.2
          (by
            constructor
            · intro hc; exact absurd hc hnpne
            · intro hc; exact absurd hc hcur0)
        refine ⟨?_, this.2⟩
        rw [this.1]
        simp [pendingNumbers, hnpne', hpne']

/-- Counterexample to claim C5 as stated: with markers 1, 2, 1 the result
contains three groups with numbers `[1, 2, 1]`, which differs from the
order in which the message numbers were first encountered (`[1, 2]`):
a re-encountered number starts a fresh group at its later position. -/
theorem claim_C5_counterexample :
    (split_messages_pdf [.extracted "Message 1 of 3".toList,
        .extracted "Message 2 of 3".toList,
        .extracted "Message 1 of 3".toList]).files.map (fun g => g.number) =
      [1, 2, 1] ∧
    firstEncounteredNumbers [.extracted "Message 1 of 3".toList,
        .extracted "Message 2 of 3".toList,
        .extracted "Message 1 of 3".toList] [] = [1, 2] ∧
    ([1, 2, 1] : List Nat) ≠ [1, 2] := by
  exact ⟨by decide, by decide, by decide⟩

/-- Shared helper for C5 and C10: under nonzero marker numbers, the
emitted groups carry exactly the chronological sequence of group-start
marker numbers. -/
theorem split_files_map_number (inputs : List PageInput)
    (hz : inputs.all marksNonzero = true) :
    (split_messages_pdf inputs).files.map (fun g => g.number) =
      startNumbers inputs 0 := by
  have hinv := runFrom_startNumbers inputs 0 initState hz
    (by constructor <;> (intro h; rfl))
  have hinit : pendingNumbers initState = [] := rfl
  have hpend : pendingNumbers (runFrom 0 inputs initState) =
      startNumbers inputs 0 := by
    rw [hinv.1, hinit]
    rfl
  rw [split_files_eq]
  by_cases hp : (runFrom 0 inputs initState).pages_for_current_message.isEmpty
  · have h0 : (runFrom 0 inputs initState).current_message_number = 0 :=
      hinv.2.mp (List.isEmpty_iff.mp hp)
    rw [finalize_of_inactive _ (Or.inr h0)]
    rw [← hpend]
    simp [pendingNumbers, hp]
  · have hpne : (runFrom 0 inputs initState).pages_for_current_message ≠ [] := by
      intro hc
      exact hp (by rw [hc]; rfl)
    have h0 : (runFrom 0 inputs initState).current_message_number ≠ 0 := by
      intro hc
      exact hpne (hinv.2.mpr hc)
    obtain ⟨tot, htot⟩ := finalize_of_active _ hpne (Nat.pos_of_ne_zero h0)
    rw [htot]
    rw [← hpend]
    have hp' : (runFrom 0 inputs initState).pages_for_current_message.isEmpty = false := by
      cases hc : (runFrom 0 inputs initState).pages_for_current_message with
      | nil => exact absurd hc hpne
      | cons a l => rfl
    simp [pendingNumbers, hp']


/-- Claim C5, amended: provided every detected marker declares a nonzero
message number, the groups appear in the chronological order in which
their starting markers were encountered during the front-to-back scan
(`startNumbers`); a number re-encountered later starts a new group at its
later position, and the output is not sorted by message number. -/
theorem claim_C5 (inputs : List PageInput)
    (hz : inputs.all marksNonzero = true) :
    (split_messages_pdf inputs).files.map (fun g => g.number) =
      startNumbers inputs 0 :=
  split_files_map_number inputs hz

/-- Witness for the amended C5 at a concrete three-marker document. -/
theorem claim_C5_witness :
    (split_messages_pdf [.extracted "Message 2 of 3".toList,
        .extracted "Message 7 of 3".toList, .extracted "tail".toList,
        .extracted "Message 2 of 3".toList]).files.map (fun g => g.number) =
      startNumbers [.extracted "Message 2 of 3".toList,
        .extracted "Message 7 of 3".toList, .extracted "tail".toList,
        .extracted "Message 2 of 3".toList] 0 :=
  claim_C5 [.extracted "Message 2 of 3".toList,
    .extracted "Message 7 of 3".toList, .extracted "tail".toList,
    .extracted "Message 2 of 3".toList] (by decide)

/-! ### Claim C1: the partition invariant -/

theorem pageCount_append (fs : List GeneratedFile) (g : GeneratedFile) (p : Nat) :
    pageCount (fs ++ [g]) p = pageCount fs p + g.pages.count p := by
  simp [pageCount]

theorem count_singleton_ne (p i : Nat) (h : p ≠ i) : List.count p [i] = 0 := by
  simp [List.count_cons]
  intro hc
  exact absurd hc.symm h

theorem countSt_eq_zero_of_out (st : SplitState) (i p : Nat)
    (hb : ∀ g ∈ st.generated_files, ∀ x ∈ g.pages, x < i)
    (hba : ∀ x ∈ st.pages_for_current_message, x < i)
    (hp : i ≤ p) : countSt p st = 0 := by
  have h1 : pageCount st.generated_files p = 0 := by
    apply List.sum_eq_zero
    intro x hx
    rw [List.mem_map] at hx
    obtain ⟨g, hg, hgx⟩ := hx
    rw [← hgx, List.count_eq_zero]
    intro hmem
    exact absurd hp (by have := hb g hg p hmem; omega)
  have h2 : st.pages_for_current_message.count p = 0 := by
    rw [List.count_eq_zero]
    intro hmem
    exact absurd hp (by have := hba p hmem; omega)
  rw [countSt, h1, h2]

theorem sorted_append_new (acc : List Nat) (i : Nat)
    (hs : List.Pairwise (· < ·) acc) (hb : ∀ x ∈ acc, x < i) :
    List.Pairwise (· < ·) (acc ++ [i]) := by
  rw [List.pairwise_append]
  refine ⟨hs, List.pairwise_singleton _ _, ?_⟩
  intro a ha b hb'
  rw [List.mem_singleton] at hb'
  rw [hb']
  exact hb a ha

theorem processPage_invP (f i : Nat) (st : SplitState) (inp : PageInput)
    (hx : inp ≠ .exn) (hz : marksNonzero inp = true) (hfi : f ≤ i)
    (h : InvP f i st) : InvP f (i + 1) (processPage st i inp) := by
  have hboundAcc1 : ∀ x ∈ st.pages_for_current_message ++ [i], x < i + 1 := by
    intro x hxm
    rcases List.mem_append.mp hxm with hxm | hxm
    · have := h.boundAcc x hxm; omega
    · rw [List.mem_singleton] at hxm; omega
  have hbound1 : ∀ g ∈ st.generated_files, ∀ x ∈ g.pages, x < i + 1 := by
    intro g hg x hxm
    have := h.bound g hg x hxm; omega
  have hcount_append : ∀ p, (st.pages_for_current_message ++ [i]).count p =
      st.pages_for_current_message.count p + List.count p [i] := by
    intro p
    rw [List.count_append]
  have hlo_append : ∀ p, p < f →
      pageCount st.generated_files p +
        (st.pages_for_current_message ++ [i]).count p = 0 := by
    intro p hp
    rw [hcount_append p, count_singleton_ne p i (by omega)]
    have := h.lo p hp
    rw [countSt] at this
    omega
  have hmid_append : ∀ p, f ≤ p → p < i + 1 →
      pageCount st.generated_files p +
        (st.pages_for_current_message ++ [i]).count p = 1 := by
    intro p hpf hpi
    rw [hcount_append p]
    by_cases hpe : p = i
    · subst hpe
      have h0 := countSt_eq_zero_of_out st p p h.bound h.boundAcc (Nat.le_refl p)
      rw [countSt] at h0
      have hc1 : List.count p [p] = 1 := by simp
      omega
    · rw [count_singleton_ne p i hpe]
      have := h.mid p hpf (by omega)
      rw [countSt] at this
      omega
  have hsortedAcc1 : List.Pairwise (· < ·) (st.pages_for_current_message ++ [i]) :=
    sorted_append_new _ i h.sortedAcc h.boundAcc
  match hm : pageMatch inp with
  | none =>
    rw [processPage_noMark_pos st i inp hm hx h.cur]
    exact {
      bound := hbound1
      boundAcc := hboundAcc1
      sorted := h.sorted
      sortedAcc := hsortedAcc1
      lo := fun p hp => hlo_append p hp
      mid := fun p hpf hpi => hmid_append p hpf hpi
      cur := h.cur
      accNe := by simp }
  | some (n, T) =>
    obtain ⟨t, n', T', hpt, hst⟩ := pageMatch_isSome_elim inp (by rw [hm]; rfl)
    subst hpt
    have hnn : n' = n ∧ T' = T := by
      rw [show pageMatch (.extracted t) = some (n', T') from hst] at hm
      have := Option.some_inj.mp hm
      exact ⟨congrArg Prod.fst this, congrArg Prod.snd this⟩
    rw [hnn.1, hnn.2] at hst
    have hn0 : n ≠ 0 := by
      rw [marksNonzero, hm] at hz
      exact of_decide_eq_true hz
    rw [processPage_match st i t n T hst]
    by_cases hne : n ≠ st.current_message_number
    · rw [if_pos hne]
      have hpe : st.pages_for_current_message.isEmpty = false := by
        cases hc : st.pages_for_current_message with
        | nil => exact absurd hc h.accNe
        | cons a l => rfl
      rw [hpe]
      simp only [Bool.false_eq_true, if_false]
      exact {
        bound := by
          intro g hg x hxm
          rcases List.mem_append.mp hg with hg | hg
          · have := h.bound g hg x hxm; omega
          · rw [List.mem_singleton] at hg
            subst hg
            have := h.boundAcc x hxm; omega
        boundAcc := by
          intro x hxm
          rw [List.mem_singleton] at hxm
          omega
        sorted := by
          intro g hg
          rcases List.mem_append.mp hg with hg | hg
          · exact h.sorted g hg
          · rw [List.mem_singleton] at hg
            subst hg
            exact h.sortedAcc
        sortedAcc := List.pairwise_singleton _ _
        lo := by
          intro p hp
          rw [countSt]
          simp only
          rw [pageCount_append, count_singleton_ne p i (by omega)]
          have hgp : (GeneratedFile.mk st.current_message_number (TotalTag.num T) st.pages_for_current_message).pages = st.pages_for_current_message := rfl
          rw [hgp]
          have := h.lo p hp
          rw [countSt] at this
          omega
        mid := by
          intro p hpf hpi
          rw [countSt]
          simp only
          rw [pageCount_append]
          have hgp : (GeneratedFile.mk st.current_message_number (TotalTag.num T) st.pages_for_current_message).pages = st.pages_for_current_message := rfl
          rw [hgp]
          by_cases hpe2 : p = i
          · subst hpe2
            have h0 := countSt_eq_zero_of_out st p p h.bound h.boundAcc (Nat.le_refl p)
            rw [countSt] at h0
            have hc1 : List.count p [p] = 1 := by simp
            omega
          · rw [count_singleton_ne p i hpe2]
            have := h.mid p hpf (by omega)
            rw [countSt] at this
            omega
        cur := Nat.pos_of_ne_zero hn0
        accNe := by simp }
    · rw [if_neg hne]
      have hmem : i ∉ st.pages_for_current_message := by
        intro hc
        have := h.boundAcc i hc
        omega
      rw [if_neg hmem]
      exact {
        bound := hbound1
        boundAcc := hboundAcc1
        sorted := h.sorted
        sortedAcc := hsortedAcc1
        lo := fun p hp => hlo_append p hp
        mid := fun p hpf hpi => hmid_append p hpf hpi
        cur := h.cur
        accNe := by simp }

theorem runFrom_invP (f : Nat) (ps : List PageInput) :
    ∀ i st, ps.all noExn = true → ps.all marksNonzero = true → f ≤ i →
      InvP f i st → InvP f (i + ps.length) (runFrom i ps st) := by
  induction ps with
  | nil => intro i st _ _ _ h; exact h
  | cons p ps ih =>
    intro i st he hz hfi h
    simp only [List.all_cons, Bool.and_eq_true] at he hz
    have hx : p ≠ .exn := by
      intro hc
      rw [hc] at he
      exact absurd he.1 (by simp [noExn])
    rw [runFrom]
    have hN : i + (p :: ps).length = (i + 1) + ps.length := by
      simp [List.length_cons]
      omega
    rw [hN]
    exact ih (i + 1) (processPage st i p) he.2 hz.2 (by omega)
      (processPage_invP f i st p hx hz.1 hfi h)

/-- Counterexample to claim C1 as stated: on the document with pages
`Message 1 of 2` then `Message 0 of 2`, the first marker is detected on
page 0, yet page 1 (at/after the first marker) is assigned to no
MessageGroup: the `Message 0` marker restarts an accumulation whose
current message number is 0, which the final seal (guarded by
`current_message_number > 0`) silently drops. -/
theorem claim_C1_counterexample :
    firstMarkerIdx [.extracted "Message 1 of 2".toList,
      .extracted "Message 0 of 2".toList] = some 0 ∧
    (1 : Nat) < 2 ∧
    pageCount (split_messages_pdf [.extracted "Message 1 of 2".toList,
      .extracted "Message 0 of 2".toList]).files 1 = 0 ∧
    (0 : Nat) ≠ 1 := by
  exact ⟨by decide, by decide, by decide, by decide⟩

/-- Claim C1, amended: provided no page raises a processing exception and
every detected marker declares a nonzero message number, every page at or
after the first detected marker is stored exactly once across the
returned MessageGroups, and within each group the page indices are
strictly increasing (original document order). -/
theorem claim_C1 (inputs : List PageInput) (f : Nat)
    (he : inputs.all noExn = true) (hz : inputs.all marksNonzero = true)
    (hf : firstMarkerIdx inputs = some f) :
    (∀ p, f ≤ p → p < inputs.length →
      pageCount (split_messages_pdf inputs).files p = 1) ∧
    (∀ g ∈ (split_messages_pdf inputs).files, List.Pairwise (· < ·) g.pages) := by
  obtain ⟨pre, p, post, heq, hlen, hpre, hp⟩ := firstMarkerIdx_some inputs f hf
  obtain ⟨t, n, T, hpt, hst⟩ := pageMatch_isSome_elim p hp
  subst hpt
  subst heq
  have heparts : noExn (PageInput.extracted t) = true ∧ post.all noExn = true := by
    rw [List.all_append, List.all_cons] at he
    simp only [Bool.and_eq_true] at he
    exact ⟨he.2.1, he.2.2⟩
  have hzparts : marksNonzero (PageInput.extracted t) = true ∧
      post.all marksNonzero = true := by
    rw [List.all_append, List.all_cons] at hz
    simp only [Bool.and_eq_true] at hz
    exact ⟨hz.2.1, hz.2.2⟩
  have hn : n ≠ 0 := marksNonzero_elim t n T hst hzparts.1
  have hskv : initState.skipped + pre.length = f := by simp [initState, hlen]
  have hst0 : runFrom 0 pre initState = { initState with skipped := f } := by
    rw [runFrom_noMark pre 0 initState hpre rfl, hskv]
  have hmatch := processPage_match { initState with skipped := f } f t n T hst
  have hcond : n ≠ ({ initState with skipped := f } : SplitState).current_message_number := hn
  have hpages : ({ initState with skipped := f } : SplitState).pages_for_current_message.isEmpty = true := rfl
  rw [if_pos hcond, if_pos hpages] at hmatch
  have hrun : runFrom 0 (pre ++ .extracted t :: post) initState =
      runFrom (f + 1) post
        { initState with
          total_messages_reported := T
          last_match := some (n, T)
          current_message_number := n
          pages_for_current_message := [f]
          skipped := f } := by
    rw [runFrom_append pre (.extracted t :: post) 0 initState, hst0]
    have hidx : 0 + pre.length = f := by omega
    rw [hidx, runFrom, hmatch]
  have hinv1 : InvP f (f + 1)
      { initState with
        total_messages_reported := T
        last_match := some (n, T)
        current_message_number := n
        pages_for_current_message := [f]
        skipped := f } := {
    bound := by intro g hg; cases hg
    boundAcc := by
      intro x hxm
      rw [List.mem_singleton] at hxm
      omega
    sorted := by intro g hg; cases hg
    sortedAcc := List.pairwise_singleton _ _
    lo := by
      intro q hq
      rw [countSt]
      simp only
      rw [count_singleton_ne q f (by omega)]
      rfl
    mid := by
      intro q hqf hqi
      have hq : q = f := by omega
      rw [countSt, hq]
      simp [pageCount, List.count_cons, initState]
    cur := Nat.pos_of_ne_zero hn
    accNe := by simp }
  have hinvE := runFrom_invP f post (f + 1) _ heparts.2 hzparts.2 (by omega) hinv1
  have hlenE : (pre ++ PageInput.extracted t :: post).length = f + 1 + post.length := by
    simp [hlen]
    omega
  set stE := runFrom (f + 1) post
      { initState with
        total_messages_reported := T
        last_match := some (n, T)
        current_message_number := n
        pages_for_current_message := [f]
        skipped := f } with hstE
  obtain ⟨tot, htot⟩ := finalize_of_active stE hinvE.accNe hinvE.cur
  have hfiles : (split_messages_pdf (pre ++ PageInput.extracted t :: post)).files =
      stE.generated_files ++
        [⟨stE.current_message_number, tot, stE.pages_for_current_message⟩] := by
    rw [split_files_eq, hrun, htot]
  constructor
  · intro q hqf hql
    rw [hfiles, pageCount_append]
    have hgp : (GeneratedFile.mk stE.current_message_number tot stE.pages_for_current_message).pages = stE.pages_for_current_message := rfl
    rw [hgp]
    have := hinvE.mid q hqf (by rw [hlenE] at hql; omega)
    rw [countSt] at this
    omega
  · intro g hg
    rw [hfiles] at hg
    rcases List.mem_append.mp hg with hg | hg
    · exact hinvE.sorted g hg
    · rw [List.mem_singleton] at hg
      subst hg
      exact hinvE.sortedAcc

/-- Witness for the amended C1 at a concrete document with a skipped intro
page, an extraction-failure continuation and two messages. -/
theorem claim_C1_witness :
    (∀ p, 1 ≤ p → p < 5 →
      pageCount (split_messages_pdf [.extracted "intro".toList,
        .extracted "Message 3 of 2".toList, .failed,
        .extracted "Message 1 of 2".toList, .extracted "tail".toList]).files p = 1) ∧
    (∀ g ∈ (split_messages_pdf [.extracted "intro".toList,
        .extracted "Message 3 of 2".toList, .failed,
        .extracted "Message 1 of 2".toList, .extracted "tail".toList]).files,
      List.Pairwise (· < ·) g.pages) := by
  have h := claim_C1 [.extracted "intro".toList,
    .extracted "Message 3 of 2".toList, .failed,
    .extracted "Message 1 of 2".toList, .extracted "tail".toList] 1
    (by decide) (by decide) (by decide)
  simpa using h

/-! ### Claim C10 -/

theorem mkFileName_num_injective_left (x y T : Nat)
    (h : mkFileName x (.num T) = mkFileName y (.num T)) : x = y := by
  rw [mkFileName, mkFileName] at h
  have h1 := List.append_cancel_right h
  have h2 := List.append_cancel_right h1
  have h3 := List.append_cancel_right h2
  have h4 := List.append_cancel_left h3
  exact toDec_injective x y h4

/-- Files whose (number, total) pair is `(a, t)` all render to
`mkFileName a t`, so that name occurs in the rendered name list at least
as often as the pair occurs among the files. -/
theorem filter_pair_le_count_name (files : List GeneratedFile) (a : Nat) (t : TotalTag) :
    (files.filter (fun g => decide (g.number = a ∧ g.total = t))).length ≤
      (files.map fileName).count (mkFileName a t) := by
  induction files with
  | nil => simp
  | cons g fs ih =>
    rw [List.filter_cons, List.map_cons, List.count_cons]
    by_cases hg : g.number = a ∧ g.total = t
    · have hname : fileName g = mkFileName a t := by
        rw [fileName, hg.1, hg.2]
      have hbeq : (fileName g == mkFileName a t) = true := by
        rw [hname]
        exact beq_self_eq_true _
      rw [if_pos (decide_eq_true hg), if_pos hbeq, List.length_cons]
      omega
    · rw [if_neg (fun hc => hg (of_decide_eq_true hc))]
      exact le_trans ih (Nat.le_add_right _ _)

/-- The file-system model: each output is written by opening its path in
truncating `wb` mode, so after all writes a path holds the file written
last under it. -/
theorem lastWrite_last_occurrence (gs1 : List GeneratedFile) (g : GeneratedFile)
    (gs2 : List GeneratedFile) (nm : List Char)
    (hg : fileName g = nm) (hafter : ∀ g2 ∈ gs2, fileName g2 ≠ nm) :
    lastWrite nm (gs1 ++ g :: gs2) = some g := by
  rw [lastWrite, List.filter_append, List.filter_cons, if_pos (decide_eq_true hg)]
  have h2 : List.filter (fun x => decide (fileName x = nm)) gs2 = [] := by
    rw [List.filter_eq_nil_iff]
    intro x hx
    simp [hafter x hx]
  rw [h2]
  exact List.getLast?_concat _

/-- Counterexample to claim C10 as stated: message number 0 is
re-encountered after the intervening number 1 (markers 0, 1, 0 with equal
totals), yet only one group numbered 0 is sealed — the second 0-numbered
accumulation is dropped by the final seal's `current_message_number > 0`
guard at line 177 — and its output path occurs once, not twice, in the
returned file list. -/
theorem claim_C10_counterexample :
    (split_messages_pdf [.extracted "Message 0 of 2".toList,
      .extracted "Message 1 of 2".toList,
      .extracted "Message 0 of 2".toList]).files =
      [⟨0, .num 2, [0]⟩, ⟨1, .num 2, [1]⟩] ∧
    ((split_messages_pdf [.extracted "Message 0 of 2".toList,
      .extracted "Message 1 of 2".toList,
      .extracted "Message 0 of 2".toList]).files.map fileName).count
      (mkFileName 0 (.num 2)) = 1 ∧
    ¬ 2 ≤ 1 := by
  exact ⟨by decide, by decide, by decide⟩

/-- Claim C10, amended: provided every detected marker declares a nonzero
message number, a message number that is re-encountered after an
intervening different number (it starts two accumulations during the
scan) yields at least two distinct groups with that number in the
returned list; any two groups whose (number, total) pairs coincide render
to the same output path, which therefore occurs in the returned file list
at least as often as the pair does; and the content finally at a path is
the group written last under it (each write opens the path in truncating
`wb` mode), so the later write overwrites the earlier one. -/
theorem claim_C10 (inputs : List PageInput) (a : Nat)
    (hz : inputs.all marksNonzero = true)
    (ha : 2 ≤ (startNumbers inputs 0).count a) :
    2 ≤ ((split_messages_pdf inputs).files.map (fun g => g.number)).count a ∧
    (∀ t : TotalTag,
      2 ≤ ((split_messages_pdf inputs).files.filter
        (fun g => decide (g.number = a ∧ g.total = t))).length →
      2 ≤ ((split_messages_pdf inputs).files.map fileName).count (mkFileName a t)) ∧
    (∀ (nm : List Char) (gs1 : List GeneratedFile) (g : GeneratedFile)
        (gs2 : List GeneratedFile),
      (split_messages_pdf inputs).files = gs1 ++ g :: gs2 →
      fileName g = nm → (∀ g2 ∈ gs2, fileName g2 ≠ nm) →
      lastWrite nm (split_messages_pdf inputs).files = some g) := by
  refine ⟨?_, ?_, ?_⟩
  · rw [split_files_map_number inputs hz]
    exact ha
  · intro t ht
    exact le_trans ht (filter_pair_le_count_name _ a t)
  · intro nm gs1 g gs2 heq hg hafter
    rw [heq]
    exact lastWrite_last_occurrence gs1 g gs2 nm hg hafter

/-- Witness for the amended C10 at the concrete document with markers
`Message 1 of 2`, `Message 2 of 2`, `Message 1 of 2` (number 1 starts two
groups). -/
theorem claim_C10_witness :
    2 ≤ ((split_messages_pdf [.extracted "Message 1 of 2".toList,
      .extracted "Message 2 of 2".toList,
      .extracted "Message 1 of 2".toList]).files.map (fun g => g.number)).count 1 ∧
    (∀ t : TotalTag,
      2 ≤ ((split_messages_pdf [.extracted "Message 1 of 2".toList,
        .extracted "Message 2 of 2".toList,
        .extracted "Message 1 of 2".toList]).files.filter
        (fun g => decide (g.number = 1 ∧ g.total = t))).length →
      2 ≤ ((split_messages_pdf [.extracted "Message 1 of 2".toList,
        .extracted "Message 2 of 2".toList,
        .extracted "Message 1 of 2".toList]).files.map fileName).count
        (mkFileName 1 t)) ∧
    (∀ (nm : List Char) (gs1 : List GeneratedFile) (g : GeneratedFile)
        (gs2 : List GeneratedFile),
      (split_messages_pdf [.extracted "Message 1 of 2".toList,
        .extracted "Message 2 of 2".toList,
        .extracted "Message 1 of 2".toList]).files = gs1 ++ g :: gs2 →
      fileName g = nm → (∀ g2 ∈ gs2, fileName g2 ≠ nm) →
      lastWrite nm (split_messages_pdf [.extracted "Message 1 of 2".toList,
        .extracted "Message 2 of 2".toList,
        .extracted "Message 1 of 2".toList]).files = some g) :=
  claim_C10 [.extracted "Message 1 of 2".toList,
    .extracted "Message 2 of 2".toList,
    .extracted "Message 1 of 2".toList] 1 (by decide) (by decide)

end OFW
